import Mathlib

/-!
Verification development for the lumos claim-verification pipeline.

The definitions below are a shallow embedding of the TypeScript source:
* the multi-stage sentence classification / rewrite / disambiguation /
  final-claim pipeline (`app/api/reclaimify`-style route),
* the rate/token-budgeted scheduler, retry policy, evidence relevance
  selector and verdict aggregation of `app/api/factCheck/route.ts`.

External oracle calls (LLM categorisation, rewriting, disambiguation,
implicit-claim extraction, embedding, verification) are modelled as
function parameters; a `none`/empty answer models a thrown error or a
malformed (non-array) response, which the source handles in its
`catch` branches.  JavaScript numbers for token counts and timestamps
are modelled as `Nat` (they are nonnegative integers in the source),
trust scores as `ℚ`, and embedding vectors as `List ℝ`.
-/

namespace Lumos

/-! ### Decimal representation of ids

The pipeline generates ids by template strings such as
`sentence-${index}`.  To reason about the id-keyed `Map` lookups we
prove that `Nat.repr` (decimal printing) is injective, hence distinct
indices yield distinct ids.
-/

/-- Fuel-free specification of `Nat.toDigits 10`: the decimal digit
characters of `n`, most significant first. -/
def natDecimalDigits (n : Nat) : List Char :=
  if n < 10 then [Nat.digitChar n]
  else natDecimalDigits (n / 10) ++ [Nat.digitChar (n % 10)]
termination_by n
decreasing_by exact Nat.div_lt_self (by omega) (by omega)

theorem natDecimalDigits_of_lt {n : Nat} (h : n < 10) :
    natDecimalDigits n = [Nat.digitChar n] := by
  rw [natDecimalDigits]; simp [h]

theorem natDecimalDigits_of_ge {n : Nat} (h : ¬ n < 10) :
    natDecimalDigits n = natDecimalDigits (n / 10) ++ [Nat.digitChar (n % 10)] := by
  rw [natDecimalDigits]; simp [h]

theorem natDecimalDigits_ne_nil (n : Nat) : natDecimalDigits n ≠ [] := by
  by_cases h : n < 10
  · rw [natDecimalDigits_of_lt h]; simp
  · rw [natDecimalDigits_of_ge h]; simp

theorem natDecimalDigits_concat (n : Nat) :
    natDecimalDigits n =
      (if n < 10 then [] else natDecimalDigits (n / 10)) ++ [Nat.digitChar (n % 10)] := by
  by_cases h : n < 10
  · rw [natDecimalDigits_of_lt h]; simp [h, Nat.mod_eq_of_lt h]
  · rw [natDecimalDigits_of_ge h]; simp [h]

theorem digitChar_inj_lt {a b : Nat} (ha : a < 10) (hb : b < 10)
    (h : Nat.digitChar a = Nat.digitChar b) : a = b :=
  have key : ∀ a < 10, ∀ b < 10, Nat.digitChar a = Nat.digitChar b → a = b := by decide
  key a ha b hb h

theorem natDecimalDigits_inj : ∀ {n m : Nat},
    natDecimalDigits n = natDecimalDigits m → n = m := by
  intro n
  induction n using Nat.strong_induction_on with
  | _ n ih =>
    intro m h
    rw [natDecimalDigits_concat n, natDecimalDigits_concat m] at h
    have h' := congrArg List.reverse h
    simp only [List.reverse_append, List.reverse_cons, List.reverse_nil,
      List.nil_append, List.cons_append] at h'
    obtain ⟨hd, ht⟩ := List.cons.inj h'
    have hmod : n % 10 = m % 10 :=
      digitChar_inj_lt (Nat.mod_lt _ (by omega)) (Nat.mod_lt _ (by omega)) hd
    have htails : (if n < 10 then ([] : List Char) else natDecimalDigits (n / 10)) =
        (if m < 10 then ([] : List Char) else natDecimalDigits (m / 10)) :=
      List.reverse_inj.mp ht
    by_cases hn : n < 10 <;> by_cases hm : m < 10
    · omega
    · simp only [hn, hm, if_true, if_false] at htails
      exact absurd htails.symm (natDecimalDigits_ne_nil _)
    · simp only [hn, hm, if_true, if_false] at htails
      exact absurd htails (natDecimalDigits_ne_nil _)
    · simp only [hn, hm, if_false] at htails
      have hdiv : n / 10 = m / 10 :=
        ih (n / 10) (Nat.div_lt_self (by omega) (by omega)) htails
      omega

theorem toDigitsCore_eq_natDecimalDigits :
    ∀ (fuel n : Nat) (ds : List Char), n < fuel →
      Nat.toDigitsCore 10 fuel n ds = natDecimalDigits n ++ ds := by
  intro fuel
  induction fuel with
  | zero => intro n ds h; omega
  | succ fuel ih =>
    intro n ds h
    show Nat.toDigitsCore 10 (fuel + 1) n ds = natDecimalDigits n ++ ds
    by_cases h10 : n < 10
    · have hz : n / 10 = 0 := by omega
      simp [Nat.toDigitsCore, hz, natDecimalDigits_of_lt h10, Nat.mod_eq_of_lt h10]
    · have hz : ¬ n / 10 = 0 := by omega
      have hlt : n / 10 < fuel := by
        have := Nat.div_lt_self (n := n) (by omega) (by omega : (1:Nat) < 10)
        omega
      simp only [Nat.toDigitsCore, hz, if_false]
      rw [ih (n / 10) _ hlt, natDecimalDigits_of_ge h10]
      simp

theorem natRepr_eq (n : Nat) : Nat.repr n = (natDecimalDigits n).asString := by
  show (Nat.toDigits 10 n).asString = (natDecimalDigits n).asString
  rw [show Nat.toDigits 10 n = Nat.toDigitsCore 10 (n + 1) n [] from rfl,
    toDigitsCore_eq_natDecimalDigits (n + 1) n [] (by omega)]
  simp

theorem natRepr_inj {n m : Nat} (h : Nat.repr n = Nat.repr m) : n = m := by
  rw [natRepr_eq, natRepr_eq] at h
  exact natDecimalDigits_inj (by
    have := congrArg String.data h
    simpa [List.asString] using this)

/-- Template-string ids: a fixed prefix followed by the decimal index. -/
def templateId (pre : String) (i : Nat) : String := pre ++ Nat.repr i

theorem templateId_inj {pre : String} {i j : Nat}
    (h : templateId pre i = templateId pre j) : i = j := by
  have hdata := congrArg String.data h
  simp only [templateId, String.data_append] at hdata
  exact natRepr_inj (String.ext (List.append_cancel_left hdata))

/-- Whitespace characters stripped by JavaScript `String.prototype.trim()`
(the ASCII whitespace characters and the no-break space; the further
exotic Unicode space characters are not used by the repository). -/
def isJsWhitespace (c : Char) : Bool :=
  c = ' ' ∨ c = '\t' ∨ c = '\n' ∨ c = '\r' ∨ c = '\x0b' ∨ c = '\x0c' ∨ c = '\u00A0'

/-- JavaScript `String.prototype.trim()`: strip leading and trailing
whitespace.  Implemented by structural recursion on the character list so
that it evaluates inside the kernel. -/
def jsTrim (s : String) : String :=
  ⟨((s.data.dropWhile isJsWhitespace).reverse.dropWhile isJsWhitespace).reverse⟩

/-! ### Claim-extraction pipeline: data model

Shallow embedding of the reclaimify route (`part_001`).  TypeScript
optional fields become `Option`; the three-valued string union for
categories becomes an inductive type.
-/

inductive SentenceCategory
  | Verifiable
  | PartiallyVerifiable
  | NotVerifiable
deriving DecidableEq

inductive AmbiguityType
  | referential
  | structural
deriving DecidableEq

inductive DisambiguationSource
  | original
  | rewritten
deriving DecidableEq

structure ProcessedSentence where
  originalSentence : String
  category : SentenceCategory
  categoryReasoning : String
  rewrittenSentence : Option String
  rewriteReasoning : Option String
  isAmbiguous : Bool
  ambiguityType : Option AmbiguityType
  ambiguityReasoning : Option String
  canBeDisambiguated : Option Bool
  disambiguationReasoning : Option String
  disambiguatedSentence : Option String
  clarityReasoning : Option String
  finalClaim : Option String
  implicitClaims : List String
  implicitClaimsReasoning : Option String
deriving DecidableEq

structure InternalProcessedSentence extends ProcessedSentence where
  id : String
  candidateSentence : Option String
  disambiguationSource : Option DisambiguationSource
deriving DecidableEq

structure CategorizationInput where
  id : String
  sentence : String
deriving DecidableEq

structure CategorizationResult where
  id : String
  sentence : String
  category : SentenceCategory
  reasoning : String
deriving DecidableEq

structure RewriteInput where
  id : String
  sentence : String
  reasoning : String
deriving DecidableEq

structure RewrittenPartial where
  id : String
  originalSentence : String
  reasoning : String
  rewrittenSentence : Option String
deriving DecidableEq

structure DisambiguationInput where
  id : String
  sentence : String
deriving DecidableEq

structure DisambiguationResult where
  id : String
  sentence : String
  isAmbiguous : Bool
  reasoning : String
  ambiguityType : Option AmbiguityType
  ambiguityReasoning : Option String
  canBeDisambiguated : Option Bool
  disambiguationReasoning : Option String
  disambiguatedSentence : Option String
  clarityReasoning : Option String
deriving DecidableEq

structure ImplicitClaimInput where
  id : String
  sentence : String
  category : SentenceCategory
  reasoning : String
deriving DecidableEq

structure ImplicitClaimResult where
  id : String
  originalSentence : String
  hasImplicitClaims : Bool
  implicitClaims : List String
  reasoning : String
deriving DecidableEq

def DEFAULT_CATEGORY_REASONING : String := "Failed to categorize this sentence"

/-- The external LLM calls made by the pipeline.  A `none` result models a
thrown error or a malformed (non-array) JSON response — both are handled
by the same `catch` fallback in the source. -/
structure Oracles where
  categorize : List CategorizationInput → Option (List CategorizationResult)
  rewrite : List RewriteInput → Option (List RewrittenPartial)
  extractImplicit : List ImplicitClaimInput → Option (List ImplicitClaimResult)
  disambiguate : List DisambiguationInput → Option (List DisambiguationResult)

/-- `new Map(list.map(x => [x.id, x])).get(k)`: later entries overwrite
earlier ones, so lookup returns the last element with the given id. -/
def mapGet {α : Type} (key : α → String) (l : List α) (k : String) : Option α :=
  (l.filter fun x => key x = k).getLast?

/-- JavaScript `a || b` on an optional string (empty string is falsy). -/
def jsOrString (a : Option String) (b : String) : String :=
  match a with
  | some s => if s = "" then b else s
  | none => b

/-! ### Claim-extraction pipeline: the oracle-call wrappers -/

def categorizeSentences (O : Oracles) (items : List CategorizationInput) :
    List CategorizationResult :=
  if items.isEmpty then []
  else
    match O.categorize items with
    | some parsed => parsed
    | none => items.map fun item =>
        { id := item.id, sentence := item.sentence,
          category := .NotVerifiable, reasoning := DEFAULT_CATEGORY_REASONING }

def rewritePartiallyVerifiable (O : Oracles) (items : List RewriteInput) :
    List RewrittenPartial :=
  if items.isEmpty then []
  else
    match O.rewrite items with
    | some parsed => parsed
    | none => items.map fun item =>
        { id := item.id, originalSentence := item.sentence,
          reasoning := item.reasoning, rewrittenSentence := some "" }

def extractImplicitClaims (O : Oracles) (items : List ImplicitClaimInput) :
    List ImplicitClaimResult :=
  if items.isEmpty then []
  else
    let candidates := items.filter fun item =>
      item.category = .NotVerifiable ∨ item.category = .PartiallyVerifiable
    if candidates.isEmpty then
      items.map fun item =>
        { id := item.id, originalSentence := item.sentence,
          hasImplicitClaims := false, implicitClaims := [],
          reasoning := "No implicit claims to extract" }
    else
      match O.extractImplicit candidates with
      | some parsed =>
        items.map fun item =>
          match mapGet (·.id) parsed item.id with
          | some extracted => extracted
          | none =>
            { id := item.id, originalSentence := item.sentence,
              hasImplicitClaims := false, implicitClaims := [],
              reasoning := "No implicit claims detected" }
      | none =>
        items.map fun item =>
          { id := item.id, originalSentence := item.sentence,
            hasImplicitClaims := false, implicitClaims := [],
            reasoning := "Error extracting implicit claims" }

def disambiguateSentences (O : Oracles) (items : List DisambiguationInput) :
    List DisambiguationResult :=
  if items.isEmpty then []
  else
    match O.disambiguate items with
    | some parsed => parsed
    | none => items.map fun item =>
        { id := item.id, sentence := item.sentence, isAmbiguous := false,
          reasoning := "Error analyzing sentence for ambiguity",
          ambiguityType := none, ambiguityReasoning := none,
          canBeDisambiguated := none, disambiguationReasoning := none,
          disambiguatedSentence := none,
          clarityReasoning :=
            some "An error occurred while attempting to analyze this sentence." }

/-! ### Claim-extraction pipeline: the five-stage state machine -/

def sentenceId (i : Nat) : String := templateId "sentence-" i

def implicitId (i : Nat) : String := templateId "implicit-" i

def mkSentenceItems (sentences : List String) : List CategorizationInput :=
  sentences.enum.map fun p => { id := sentenceId p.1, sentence := p.2 }

def mkImplicitItems (claims : List String) : List CategorizationInput :=
  claims.enum.map fun p => { id := implicitId p.1, sentence := p.2 }

/-- Initial entry for one sentence after batched categorisation
(`categorization?.category ?? 'Not Verifiable'`). -/
def initialEntry (item : CategorizationInput)
    (categorization : Option CategorizationResult) : InternalProcessedSentence :=
  { id := item.id
    originalSentence := item.sentence
    category := (categorization.map (·.category)).getD .NotVerifiable
    categoryReasoning := (categorization.map (·.reasoning)).getD DEFAULT_CATEGORY_REASONING
    rewrittenSentence := none, rewriteReasoning := none
    isAmbiguous := false
    ambiguityType := none, ambiguityReasoning := none
    canBeDisambiguated := none, disambiguationReasoning := none
    disambiguatedSentence := none, clarityReasoning := none
    finalClaim := none
    implicitClaims := [], implicitClaimsReasoning := none
    candidateSentence := none, disambiguationSource := none }

def categorizeStage (O : Oracles) (items : List CategorizationInput) :
    List InternalProcessedSentence :=
  let categorized := categorizeSentences O items
  items.map fun item => initialEntry item (mapGet (·.id) categorized item.id)

/-- Stage-2 update of one entry from the implicit-claim extraction results. -/
def implicitUpdate (implicitClaimsResults : List ImplicitClaimResult)
    (entry : InternalProcessedSentence) : InternalProcessedSentence :=
  match mapGet (·.id) implicitClaimsResults entry.id with
  | some implicitResult =>
    if implicitResult.hasImplicitClaims ∧ implicitResult.implicitClaims ≠ [] then
      { entry with implicitClaims := implicitResult.implicitClaims,
                   implicitClaimsReasoning := some implicitResult.reasoning }
    else entry
  | none => entry

/-- Stage 2: store extracted implicit claims on their parent sentences. -/
def implicitStage (O : Oracles) (processed : List InternalProcessedSentence) :
    List InternalProcessedSentence :=
  let implicitClaimInputs : List ImplicitClaimInput := processed.map fun p =>
    { id := p.id, sentence := p.originalSentence,
      category := p.category, reasoning := p.categoryReasoning }
  let implicitClaimsResults := extractImplicitClaims O implicitClaimInputs
  processed.map (implicitUpdate implicitClaimsResults)

/-- The one-level re-processing pass applied to extracted implicit claims
(categorise, disambiguate the Verifiable ones, set final claims). -/
def implicitBranch (O : Oracles) (allImplicitClaims : List String) :
    List ProcessedSentence :=
  let implicitSentenceItems := mkImplicitItems allImplicitClaims
  let implicitCategorized := categorizeSentences O implicitSentenceItems
  let implicitProcessed : List InternalProcessedSentence :=
    implicitSentenceItems.map fun item =>
      initialEntry item (mapGet (·.id) implicitCategorized item.id)
  let implicitDisambiguationInputs : List DisambiguationInput :=
    (implicitProcessed.filter fun p => p.category = .Verifiable).map fun p =>
      { id := p.id, sentence := p.originalSentence }
  if implicitDisambiguationInputs.isEmpty then
    (implicitProcessed.map fun entry =>
      { entry with finalClaim := some entry.originalSentence }).map (·.toProcessedSentence)
  else
    let implicitDisambiguated := disambiguateSentences O implicitDisambiguationInputs
    (implicitProcessed.map fun entry =>
      match mapGet (·.id) implicitDisambiguated entry.id with
      | some disambiguation =>
        let entry := { entry with
          isAmbiguous := disambiguation.isAmbiguous
          ambiguityType := disambiguation.ambiguityType
          ambiguityReasoning := disambiguation.ambiguityReasoning
          canBeDisambiguated := disambiguation.canBeDisambiguated
          disambiguationReasoning :=
            some (jsOrString disambiguation.disambiguationReasoning disambiguation.reasoning)
          disambiguatedSentence := disambiguation.disambiguatedSentence
          clarityReasoning := disambiguation.clarityReasoning }
        if ¬ disambiguation.isAmbiguous then
          { entry with finalClaim := some entry.originalSentence }
        else
          match disambiguation.disambiguatedSentence with
          | some s =>
            if (jsTrim s) ≠ "" then { entry with finalClaim := some (jsTrim s) }
            else { entry with finalClaim := none }
          | none => { entry with finalClaim := none }
      | none => { entry with finalClaim := some entry.originalSentence }).map
      (·.toProcessedSentence)

/-- Stage-3 update of one entry from the rewrite results
(`entry.rewrittenSentence = rewrite.rewrittenSentence?.trim() || ''`). -/
def rewriteUpdate (rewrites : List RewrittenPartial)
    (entry : InternalProcessedSentence) : InternalProcessedSentence :=
  match mapGet (·.id) rewrites entry.id with
  | some rewriteResult =>
    { entry with
      rewrittenSentence := some ((rewriteResult.rewrittenSentence.map jsTrim).getD "")
      rewriteReasoning := some rewriteResult.reasoning }
  | none => entry

/-- Stage 3: rewrite the Partially Verifiable sentences. -/
def rewriteStage (O : Oracles) (processed : List InternalProcessedSentence) :
    List InternalProcessedSentence :=
  let partialInputs : List RewriteInput :=
    (processed.filter fun p => p.category = .PartiallyVerifiable).map fun p =>
      { id := p.id, sentence := p.originalSentence, reasoning := p.categoryReasoning }
  if partialInputs.isEmpty then processed
  else
    let rewrites := rewritePartiallyVerifiable O partialInputs
    processed.map (rewriteUpdate rewrites)

/-- Stage 4 candidate bookkeeping on the entry itself. -/
def candidateUpdate (entry : InternalProcessedSentence) : InternalProcessedSentence :=
  match entry.category with
  | .Verifiable =>
    { entry with disambiguationSource := some .original
                 candidateSentence := some entry.originalSentence }
  | .PartiallyVerifiable =>
    match entry.rewrittenSentence with
    | some w =>
      if w ≠ "" ∧ (jsTrim w) ≠ "" then
        { entry with disambiguationSource := some .rewritten
                     candidateSentence := some (jsTrim w) }
      else { entry with candidateSentence := none }
    | none => { entry with candidateSentence := none }
  | .NotVerifiable => { entry with candidateSentence := none }

/-- Stage 4 disambiguation request for one entry (if it is a candidate). -/
def candidateInput (entry : InternalProcessedSentence) : Option DisambiguationInput :=
  match entry.category with
  | .Verifiable => some { id := entry.id, sentence := entry.originalSentence }
  | .PartiallyVerifiable =>
    match entry.rewrittenSentence with
    | some w =>
      if w ≠ "" ∧ (jsTrim w) ≠ "" then some { id := entry.id, sentence := w } else none
    | none => none
  | .NotVerifiable => none

/-- Stage 5 (lines 554-600 of the route): copy the disambiguation fields
onto the entry, then select the final claim deterministically. -/
def finalizeEntry (entry : InternalProcessedSentence)
    (disambiguation : Option DisambiguationResult) : InternalProcessedSentence :=
  let entry :=
    match disambiguation with
    | some d =>
      { entry with
        isAmbiguous := d.isAmbiguous
        ambiguityType := d.ambiguityType
        ambiguityReasoning := d.ambiguityReasoning
        canBeDisambiguated := d.canBeDisambiguated
        disambiguationReasoning := some (jsOrString d.disambiguationReasoning d.reasoning)
        disambiguatedSentence := d.disambiguatedSentence
        clarityReasoning := d.clarityReasoning }
    | none =>
      { entry with
        isAmbiguous := false, ambiguityType := none, ambiguityReasoning := none,
        canBeDisambiguated := none, disambiguationReasoning := none,
        disambiguatedSentence := none, clarityReasoning := none }
  let baseSentence :=
    match entry.category with
    | .Verifiable => entry.originalSentence
    | _ => (entry.rewrittenSentence.map jsTrim).getD ""
  if baseSentence = "" then { entry with finalClaim := none }
  else
    match disambiguation with
    | none => { entry with finalClaim := some baseSentence, isAmbiguous := false }
    | some d =>
      if ¬ d.isAmbiguous then { entry with finalClaim := some baseSentence }
      else
        match d.disambiguatedSentence with
        | some s =>
          if (jsTrim s) ≠ "" then { entry with finalClaim := some (jsTrim s) }
          else { entry with finalClaim := none }
        | none => { entry with finalClaim := none }

/-- Stages 4-5 over the whole list. -/
def disambiguationStage (O : Oracles) (processed : List InternalProcessedSentence) :
    List InternalProcessedSentence :=
  let disambiguationInputs := processed.filterMap candidateInput
  let processed := processed.map candidateUpdate
  let disambiguated :=
    if disambiguationInputs.isEmpty then []
    else disambiguateSentences O disambiguationInputs
  processed.map fun entry => finalizeEntry entry (mapGet (·.id) disambiguated entry.id)

structure PipelineResult where
  processedSentences : List ProcessedSentence
  processedImplicitClaims : List ProcessedSentence
deriving DecidableEq

def processSentencesMultiStep (O : Oracles) (sentences : List String) : PipelineResult :=
  if sentences.isEmpty then ⟨[], []⟩
  else
    let sentenceItems := mkSentenceItems sentences
    let processed1 := categorizeStage O sentenceItems
    let processed2 := implicitStage O processed1
    let allImplicitClaims := processed2.flatMap (·.implicitClaims)
    let processedImplicitClaims :=
      if allImplicitClaims.isEmpty then [] else implicitBranch O allImplicitClaims
    let processed3 := rewriteStage O processed2
    let processed4 := disambiguationStage O processed3
    ⟨processed4.map (·.toProcessedSentence), processedImplicitClaims⟩

/-- The claim collection of the reclaimify POST handler (lines 667-688):
implicit claims replace their parent sentence's own final claim, and the
re-processed implicit claims contribute their final claims once more. -/
def collectVerifiableClaims (processedSentences processedImplicitClaims :
    List ProcessedSentence) : List String :=
  let verifiableClaims := processedSentences.flatMap fun sentence =>
    if sentence.implicitClaims ≠ [] then
      (sentence.implicitClaims.filter fun claim => (jsTrim claim) ≠ "").map jsTrim
    else
      match sentence.finalClaim with
      | some f => if f ≠ "" ∧ (jsTrim f) ≠ "" then [(jsTrim f)] else []
      | none => []
  let additionalImplicitClaims :=
    (processedImplicitClaims.filter fun sentence =>
      match sentence.finalClaim with
      | some f => f ≠ "" ∧ (jsTrim f) ≠ ""
      | none => False).map fun sentence => ((sentence.finalClaim.map jsTrim).getD "")
  verifiableClaims ++ additionalImplicitClaims

/-! ### Basic lemmas about the pipeline stages -/

theorem mapGet_mem {α : Type} {key : α → String} {l : List α} {k : String} {x : α}
    (h : mapGet key l k = some x) : x ∈ l ∧ key x = k := by
  have hmem : x ∈ l.filter fun y => key y = k := by
    obtain ⟨hne, heq⟩ := List.mem_getLast?_eq_getLast (l := l.filter fun y => key y = k) h
    rw [heq]
    exact List.getLast_mem _
  have := List.mem_filter.mp hmem
  exact ⟨this.1, by simpa using this.2⟩

theorem implicitUpdate_fields (rs : List ImplicitClaimResult)
    (e : InternalProcessedSentence) :
    (implicitUpdate rs e).id = e.id ∧
    (implicitUpdate rs e).category = e.category ∧
    (implicitUpdate rs e).originalSentence = e.originalSentence ∧
    (implicitUpdate rs e).rewrittenSentence = e.rewrittenSentence ∧
    (implicitUpdate rs e).categoryReasoning = e.categoryReasoning := by
  unfold implicitUpdate
  split
  · split
    · exact ⟨rfl, rfl, rfl, rfl, rfl⟩
    · exact ⟨rfl, rfl, rfl, rfl, rfl⟩
  · exact ⟨rfl, rfl, rfl, rfl, rfl⟩

theorem rewriteUpdate_fields (rs : List RewrittenPartial)
    (e : InternalProcessedSentence) :
    (rewriteUpdate rs e).id = e.id ∧
    (rewriteUpdate rs e).category = e.category ∧
    (rewriteUpdate rs e).originalSentence = e.originalSentence ∧
    (rewriteUpdate rs e).categoryReasoning = e.categoryReasoning := by
  unfold rewriteUpdate
  split
  · exact ⟨rfl, rfl, rfl, rfl⟩
  · exact ⟨rfl, rfl, rfl, rfl⟩

theorem candidateUpdate_fields (e : InternalProcessedSentence) :
    (candidateUpdate e).id = e.id ∧
    (candidateUpdate e).category = e.category ∧
    (candidateUpdate e).originalSentence = e.originalSentence ∧
    (candidateUpdate e).rewrittenSentence = e.rewrittenSentence ∧
    (candidateUpdate e).isAmbiguous = e.isAmbiguous := by
  unfold candidateUpdate
  split
  · exact ⟨rfl, rfl, rfl, rfl, rfl⟩
  · split
    · split
      · exact ⟨rfl, rfl, rfl, rfl, rfl⟩
      · exact ⟨rfl, rfl, rfl, rfl, rfl⟩
    · exact ⟨rfl, rfl, rfl, rfl, rfl⟩
  · exact ⟨rfl, rfl, rfl, rfl, rfl⟩

theorem sentenceId_injective : Function.Injective sentenceId :=
  fun _ _ h => templateId_inj h

theorem mkSentenceItems_ids (sentences : List String) :
    (mkSentenceItems sentences).map (·.id) =
      (List.range sentences.length).map sentenceId := by
  unfold mkSentenceItems
  rw [List.map_map, show ((fun x : CategorizationInput => x.id) ∘
      fun p : Nat × String => ({ id := sentenceId p.1, sentence := p.2 } :
        CategorizationInput)) = sentenceId ∘ Prod.fst from rfl,
    ← List.map_map, List.enum_map_fst]

theorem mkSentenceItems_ids_nodup (sentences : List String) :
    ((mkSentenceItems sentences).map (·.id)).Nodup := by
  rw [mkSentenceItems_ids]
  exact (List.nodup_range _).map sentenceId_injective

theorem categorizeStage_ids (O : Oracles) (items : List CategorizationInput) :
    (categorizeStage O items).map (·.id) = items.map (·.id) := by
  unfold categorizeStage
  rw [List.map_map]
  rfl

theorem implicitStage_ids (O : Oracles) (l : List InternalProcessedSentence) :
    (implicitStage O l).map (·.id) = l.map (·.id) := by
  unfold implicitStage
  rw [List.map_map]
  apply List.map_congr_left
  intro e _
  exact (implicitUpdate_fields _ e).1

/-! ### The spec's stage-5 selection table -/

/-- The stage-5 final-claim selection table exactly as the specification
states it, as a function of the processed sentence's attributes.
"Non-empty" text is text that is non-blank after trimming, matching the
pipeline's whitespace normalisation (`.trim()` at every use site). -/
def stage5Spec (originalText : String) (category : SentenceCategory)
    (rewrittenText : Option String) (ambiguous : Bool)
    (disambiguatedText : Option String) : Option String :=
  match category with
  | .Verifiable =>
    if ¬ ambiguous then some originalText
    else
      match disambiguatedText with
      | some d => if (jsTrim d) ≠ "" then some (jsTrim d) else none
      | none => none
  | .PartiallyVerifiable =>
    match rewrittenText with
    | some w =>
      if (jsTrim w) = "" then none
      else if ¬ ambiguous then some (jsTrim w)
      else
        match disambiguatedText with
        | some d => if (jsTrim d) ≠ "" then some (jsTrim d) else none
        | none => none
    | none => none
  | .NotVerifiable => none

/-- One-entry form of the stage-5 table: for any entry whose original
sentence is non-empty and which carries no rewrite when Not Verifiable
(both invariants of the pipeline), the code's stage-5 computation agrees
with the spec table evaluated on the resulting entry's own fields. -/
theorem finalizeEntry_table (e : InternalProcessedSentence)
    (d : Option DisambiguationResult)
    (horig : e.originalSentence ≠ "")
    (hnv : e.category = .NotVerifiable → e.rewrittenSentence = none) :
    (finalizeEntry e d).finalClaim =
      stage5Spec (finalizeEntry e d).originalSentence (finalizeEntry e d).category
        (finalizeEntry e d).rewrittenSentence (finalizeEntry e d).isAmbiguous
        (finalizeEntry e d).disambiguatedSentence := by
  rcases hcat : e.category with _ | _ | _
  · -- Verifiable
    cases d with
    | none => simp [finalizeEntry, stage5Spec, hcat, horig]
    | some dis =>
      cases hamb : dis.isAmbiguous with
      | false => simp [finalizeEntry, stage5Spec, hcat, horig, hamb]
      | true =>
        cases hds : dis.disambiguatedSentence with
        | none => simp [finalizeEntry, stage5Spec, hcat, horig, hamb, hds]
        | some s =>
          by_cases hst : (jsTrim s) = "" <;>
            simp [finalizeEntry, stage5Spec, hcat, horig, hamb, hds, hst]
  · -- Partially Verifiable
    cases hrw : e.rewrittenSentence with
    | none =>
      cases d with
      | none => simp [finalizeEntry, stage5Spec, hcat, hrw]
      | some dis => simp [finalizeEntry, stage5Spec, hcat, hrw]
    | some w =>
      by_cases hwt : (jsTrim w) = ""
      · cases d with
        | none => simp [finalizeEntry, stage5Spec, hcat, hrw, hwt]
        | some dis => simp [finalizeEntry, stage5Spec, hcat, hrw, hwt]
      · cases d with
        | none => simp [finalizeEntry, stage5Spec, hcat, hrw, hwt]
        | some dis =>
          cases hamb : dis.isAmbiguous with
          | false => simp [finalizeEntry, stage5Spec, hcat, hrw, hwt, hamb]
          | true =>
            cases hds : dis.disambiguatedSentence with
            | none => simp [finalizeEntry, stage5Spec, hcat, hrw, hwt, hamb, hds]
            | some s =>
              by_cases hst : (jsTrim s) = "" <;>
                simp [finalizeEntry, stage5Spec, hcat, hrw, hwt, hamb, hds, hst]
  · -- Not Verifiable
    have hrw := hnv hcat
    cases d with
    | none => simp [finalizeEntry, stage5Spec, hcat, hrw]
    | some dis => simp [finalizeEntry, stage5Spec, hcat, hrw]

theorem finalizeEntry_fields (e : InternalProcessedSentence)
    (d : Option DisambiguationResult) :
    (finalizeEntry e d).category = e.category ∧
    (finalizeEntry e d).categoryReasoning = e.categoryReasoning ∧
    (finalizeEntry e d).originalSentence = e.originalSentence := by
  unfold finalizeEntry
  cases d <;> dsimp only <;> split <;>
    first
      | exact ⟨rfl, rfl, rfl⟩
      | (split <;>
          first
            | exact ⟨rfl, rfl, rfl⟩
            | (split <;> first | exact ⟨rfl, rfl, rfl⟩ | (split <;> exact ⟨rfl, rfl, rfl⟩)))

theorem mkSentenceItems_length (sentences : List String) :
    (mkSentenceItems sentences).length = sentences.length := by
  simp [mkSentenceItems]

theorem categorizeStage_length (O : Oracles) (items : List CategorizationInput) :
    (categorizeStage O items).length = items.length := by
  simp [categorizeStage]

theorem implicitStage_length (O : Oracles) (l : List InternalProcessedSentence) :
    (implicitStage O l).length = l.length := by
  simp [implicitStage]

theorem rewriteStage_length (O : Oracles) (l : List InternalProcessedSentence) :
    (rewriteStage O l).length = l.length := by
  simp only [rewriteStage]
  split <;> simp

theorem disambiguationStage_length (O : Oracles) (l : List InternalProcessedSentence) :
    (disambiguationStage O l).length = l.length := by
  simp [disambiguationStage]

/-- After stages 1-2 every entry's original sentence comes from the input
list and no rewrite has been attached yet. -/
theorem processed2_invariant (O : Oracles) (sentences : List String) :
    ∀ e ∈ implicitStage O (categorizeStage O (mkSentenceItems sentences)),
      e.originalSentence ∈ sentences ∧ e.rewrittenSentence = none := by
  intro e he
  simp only [implicitStage] at he
  obtain ⟨e1, he1, rfl⟩ := List.mem_map.mp he
  obtain ⟨-, -, horigP, hrwP, -⟩ := implicitUpdate_fields _ e1
  simp only [categorizeStage] at he1
  obtain ⟨item, hitem, rfl⟩ := List.mem_map.mp he1
  refine ⟨?_, hrwP⟩
  rw [horigP]
  show item.sentence ∈ sentences
  simp only [mkSentenceItems] at hitem
  obtain ⟨p, hp, rfl⟩ := List.mem_map.mp hitem
  have : p.2 ∈ sentences.enum.map Prod.snd := List.mem_map_of_mem Prod.snd hp
  rwa [List.enum_map_snd] at this

theorem processed2_ids_nodup (O : Oracles) (sentences : List String) :
    ((implicitStage O (categorizeStage O (mkSentenceItems sentences))).map
      (·.id)).Nodup := by
  rw [implicitStage_ids, categorizeStage_ids]
  exact mkSentenceItems_ids_nodup sentences

/-- After stage 3 every entry still draws its original sentence from the
input, and a Not Verifiable entry carries no rewritten sentence, provided
the rewrite oracle only answers for ids it was asked about. -/
theorem processed3_invariant (O : Oracles) (sentences : List String)
    (hrw : ∀ items res, O.rewrite items = some res →
      ∀ r ∈ res, r.id ∈ items.map (·.id)) :
    ∀ e ∈ rewriteStage O (implicitStage O (categorizeStage O
        (mkSentenceItems sentences))),
      e.originalSentence ∈ sentences ∧
      (e.category = .NotVerifiable → e.rewrittenSentence = none) := by
  intro e he
  simp only [rewriteStage] at he
  split at he
  · obtain ⟨horig, hrwnone⟩ := processed2_invariant O sentences e he
    exact ⟨horig, fun _ => hrwnone⟩
  · rename_i hne
    obtain ⟨e2, he2, rfl⟩ := List.mem_map.mp he
    obtain ⟨horig2, hrw2⟩ := processed2_invariant O sentences e2 he2
    obtain ⟨hidP, hcatP, horigP, -⟩ := rewriteUpdate_fields _ e2
    refine ⟨horigP ▸ horig2, ?_⟩
    intro hcatNV
    rw [hcatP] at hcatNV
    have hmiss : mapGet (·.id)
        (rewritePartiallyVerifiable O
          ((List.filter (fun p => decide (p.category = .PartiallyVerifiable))
            (implicitStage O (categorizeStage O (mkSentenceItems sentences)))).map
            fun p => ({ id := p.id, sentence := p.originalSentence,
                        reasoning := p.categoryReasoning } : RewriteInput)))
        e2.id = none := by
      set processed2 := implicitStage O (categorizeStage O (mkSentenceItems sentences))
        with hp2def
      set partialInputs :=
        (List.filter (fun p => decide (p.category = .PartiallyVerifiable))
          processed2).map
          fun p => ({ id := p.id, sentence := p.originalSentence,
                      reasoning := p.categoryReasoning } : RewriteInput)
        with hpidef
      cases hlook : mapGet (·.id) (rewritePartiallyVerifiable O partialInputs) e2.id with
      | none => rfl
      | some r =>
        exfalso
        obtain ⟨hrmem, hrid⟩ := mapGet_mem hlook
        have hidin : r.id ∈ partialInputs.map (·.id) := by
          unfold rewritePartiallyVerifiable at hrmem
          split at hrmem
          · simp at hrmem
          · split at hrmem
            · rename_i res hres
              exact hrw partialInputs res hres r hrmem
            · obtain ⟨item, hitem, rfl⟩ := List.mem_map.mp hrmem
              exact List.mem_map_of_mem _ hitem
        have : e2.id ∈ (List.filter
            (fun p => decide (p.category = .PartiallyVerifiable)) processed2).map
            (·.id) := by
          rw [← hrid]
          rw [hpidef, List.map_map] at hidin
          exact hidin
        obtain ⟨p, hpmem, hpid⟩ := List.mem_map.mp this
        obtain ⟨hpmem2, hpcat⟩ := List.mem_filter.mp hpmem
        have hpe2 : p = e2 :=
          List.inj_on_of_nodup_map (processed2_ids_nodup O sentences) hpmem2 he2 hpid
        rw [hpe2] at hpcat
        rw [hcatNV] at hpcat
        simp at hpcat
    show (rewriteUpdate _ e2).rewrittenSentence = none
    unfold rewriteUpdate
    rw [hmiss]
    exact hrw2

/-- C1: Stage-5 final-claim selection is the deterministic function given by
the spec's table: for every processed sentence, a Verifiable non-ambiguous
sentence keeps its original text; a Verifiable ambiguous sentence with a
non-blank disambiguation gets the (trimmed) disambiguated text; a Partially
Verifiable sentence with a non-blank rewrite gets the (trimmed) rewritten
text when not ambiguous and the disambiguated text when ambiguous and
disambiguated; in every other case — including every Not Verifiable
sentence and every ambiguous candidate without a disambiguation — the
final claim is null.  Hypotheses: the input sentences are non-empty (the
sentence splitters filter empty strings) and the rewrite oracle only
answers for ids it was asked about (§6 oracle contract). -/
theorem claim_C1_stage5_selection_table (O : Oracles) (sentences : List String)
    (hsent : ∀ s ∈ sentences, s ≠ "")
    (hrw : ∀ items res, O.rewrite items = some res →
      ∀ r ∈ res, r.id ∈ items.map (·.id)) :
    ∀ e ∈ (processSentencesMultiStep O sentences).processedSentences,
      e.finalClaim = stage5Spec e.originalSentence e.category e.rewrittenSentence
        e.isAmbiguous e.disambiguatedSentence := by
  intro e he
  simp only [processSentencesMultiStep] at he
  split at he
  · simp at he
  · obtain ⟨i, hi, rfl⟩ := List.mem_map.mp he
    simp only [disambiguationStage] at hi
    rw [List.map_map] at hi
    obtain ⟨e3, he3, rfl⟩ := List.mem_map.mp hi
    obtain ⟨horig3, hnv3⟩ := processed3_invariant O sentences hrw e3 he3
    obtain ⟨-, hcatC, horigC, hrwC, -⟩ := candidateUpdate_fields e3
    have horig : (candidateUpdate e3).originalSentence ≠ "" := by
      rw [horigC]; exact hsent _ horig3
    have hnv : (candidateUpdate e3).category = .NotVerifiable →
        (candidateUpdate e3).rewrittenSentence = none := by
      rw [hcatC, hrwC]; exact hnv3
    exact finalizeEntry_table (candidateUpdate e3) _ horig hnv

/-- Oracles used to instantiate the pipeline theorems on a concrete run:
categorisation marks everything Verifiable, all other oracles fail. -/
def witnessOracles : Oracles where
  categorize := fun items => some (items.map fun it =>
    { id := it.id, sentence := it.sentence,
      category := .Verifiable, reasoning := "states a checkable fact" })
  rewrite := fun _ => none
  extractImplicit := fun _ => none
  disambiguate := fun _ => none

/-- The entry the pipeline produces for the single witness sentence. -/
def c1WitnessEntry : ProcessedSentence :=
  { originalSentence := "Paris is the capital of France."
    category := .Verifiable
    categoryReasoning := "states a checkable fact"
    rewrittenSentence := none
    rewriteReasoning := none
    isAmbiguous := false
    ambiguityType := none
    ambiguityReasoning := none
    canBeDisambiguated := none
    disambiguationReasoning := some "Error analyzing sentence for ambiguity"
    disambiguatedSentence := none
    clarityReasoning := some "An error occurred while attempting to analyze this sentence."
    finalClaim := some "Paris is the capital of France."
    implicitClaims := []
    implicitClaimsReasoning := none }

theorem claim_C1_witness :
    c1WitnessEntry ∈ (processSentencesMultiStep witnessOracles
      ["Paris is the capital of France."]).processedSentences ∧
    c1WitnessEntry.finalClaim = stage5Spec c1WitnessEntry.originalSentence
      c1WitnessEntry.category c1WitnessEntry.rewrittenSentence
      c1WitnessEntry.isAmbiguous c1WitnessEntry.disambiguatedSentence := by
  refine ⟨by decide, ?_⟩
  exact claim_C1_stage5_selection_table witnessOracles
    ["Paris is the capital of France."] (by decide)
    (fun items res h => nomatch h) c1WitnessEntry (by decide)

/-- C5: if the batched categorization oracle call fails or returns a
malformed (non-array) response, every sentence of the batch is assigned
category Not Verifiable with the sentinel reasoning string, the function
still returns one result per input, and the surrounding pipeline run
continues: it still yields one processed sentence per input sentence,
each Not Verifiable with the sentinel reasoning. -/
theorem claim_C5_categorize_failure_fallback (O : Oracles)
    (items : List CategorizationInput) (sentences : List String)
    (hfail : ∀ its, O.categorize its = none) :
    categorizeSentences O items = items.map (fun item =>
      { id := item.id, sentence := item.sentence, category := .NotVerifiable,
        reasoning := DEFAULT_CATEGORY_REASONING }) ∧
    (categorizeSentences O items).length = items.length ∧
    (processSentencesMultiStep O sentences).processedSentences.length
      = sentences.length ∧
    ∀ e ∈ (processSentencesMultiStep O sentences).processedSentences,
      e.category = .NotVerifiable ∧
      e.categoryReasoning = DEFAULT_CATEGORY_REASONING := by
  have hcatAll : ∀ its : List CategorizationInput,
      categorizeSentences O its = its.map (fun item =>
        { id := item.id, sentence := item.sentence, category := .NotVerifiable,
          reasoning := DEFAULT_CATEGORY_REASONING }) := by
    intro its
    unfold categorizeSentences
    rw [hfail]
    split
    · rename_i hempty
      rw [List.isEmpty_iff.mp hempty]
      rfl
    · rfl
  have hcat := hcatAll items
  refine ⟨hcat, by rw [hcat]; simp, ?_, ?_⟩
  · simp only [processSentencesMultiStep]
    split
    · rename_i hempty
      rw [List.isEmpty_iff.mp hempty]
      rfl
    · simp only [PipelineResult.processedSentences]
      rw [List.length_map, disambiguationStage_length, rewriteStage_length,
        implicitStage_length, categorizeStage_length, mkSentenceItems_length]
  · intro e he
    simp only [processSentencesMultiStep] at he
    split at he
    · simp at he
    · obtain ⟨i, hi, rfl⟩ := List.mem_map.mp he
      simp only [disambiguationStage] at hi
      rw [List.map_map] at hi
      obtain ⟨e3, he3, rfl⟩ := List.mem_map.mp hi
      -- category and reasoning are preserved through every later stage,
      -- and stage 1 assigns the fallback values to every entry.
      have hstage1 : ∀ x ∈ categorizeStage O (mkSentenceItems sentences),
          x.category = .NotVerifiable ∧
          x.categoryReasoning = DEFAULT_CATEGORY_REASONING := by
        intro x hx
        simp only [categorizeStage] at hx
        obtain ⟨item, hitem, rfl⟩ := List.mem_map.mp hx
        cases hlook : mapGet (·.id)
            (categorizeSentences O (mkSentenceItems sentences)) item.id with
        | none => simp [initialEntry, hlook]
        | some c =>
          obtain ⟨hcmem, -⟩ := mapGet_mem hlook
          rw [hcatAll (mkSentenceItems sentences)] at hcmem
          obtain ⟨it2, -, rfl⟩ := List.mem_map.mp hcmem
          simp [initialEntry, hlook]
      have hstage2 : ∀ x ∈ implicitStage O (categorizeStage O
          (mkSentenceItems sentences)),
          x.category = .NotVerifiable ∧
          x.categoryReasoning = DEFAULT_CATEGORY_REASONING := by
        intro x hx
        simp only [implicitStage] at hx
        obtain ⟨x1, hx1, rfl⟩ := List.mem_map.mp hx
        obtain ⟨-, hcatP, -, -, hcrP⟩ := implicitUpdate_fields _ x1
        obtain ⟨h1, h2⟩ := hstage1 x1 hx1
        exact ⟨hcatP.trans h1, hcrP.trans h2⟩
      have hstage3 : ∀ x ∈ rewriteStage O (implicitStage O (categorizeStage O
          (mkSentenceItems sentences))),
          x.category = .NotVerifiable ∧
          x.categoryReasoning = DEFAULT_CATEGORY_REASONING := by
        intro x hx
        simp only [rewriteStage] at hx
        split at hx
        · exact hstage2 x hx
        · obtain ⟨x2, hx2, rfl⟩ := List.mem_map.mp hx
          obtain ⟨-, hcatP, -, hcrP⟩ := rewriteUpdate_fields _ x2
          obtain ⟨h1, h2⟩ := hstage2 x2 hx2
          exact ⟨hcatP.trans h1, hcrP.trans h2⟩
      obtain ⟨h3cat, h3cr⟩ := hstage3 e3 he3
      obtain ⟨hfcat, hfcr, -⟩ := finalizeEntry_fields (candidateUpdate e3) _
      obtain ⟨-, hccat, -, -, -⟩ := candidateUpdate_fields e3
      have hcatreasonC : (candidateUpdate e3).categoryReasoning
          = e3.categoryReasoning := by
        unfold candidateUpdate
        split
        · rfl
        · split
          · split
            · rfl
            · rfl
          · rfl
        · rfl
      exact ⟨hfcat.trans (hccat.trans h3cat), hfcr.trans (hcatreasonC.trans h3cr)⟩

def c5FailOracles : Oracles where
  categorize := fun _ => none
  rewrite := fun _ => none
  extractImplicit := fun _ => none
  disambiguate := fun _ => none

theorem claim_C5_witness :
    categorizeSentences c5FailOracles
      [{ id := "s1", sentence := "The sky is blue." }] =
      [{ id := "s1", sentence := "The sky is blue.",
         category := .NotVerifiable,
         reasoning := DEFAULT_CATEGORY_REASONING }] ∧
    (processSentencesMultiStep c5FailOracles
      ["The sky is blue."]).processedSentences.length = 1 := by
  have h := claim_C5_categorize_failure_fallback c5FailOracles
    [{ id := "s1", sentence := "The sky is blue." }] ["The sky is blue."]
    (fun _ => rfl)
  exact ⟨h.1.trans rfl, h.2.2.1.trans rfl⟩

/-- C10: in the reclaimify POST handler, an extracted implicit claim `c`
(non-blank after trimming) whose one-level re-processing pass assigns it a
final claim equal to `c` appears in the returned `verifiableClaims` list
at least twice: once contributed from its parent sentence's
`implicitClaims` list (which replaces that sentence's own final claim) and
once from the re-processed implicit claim's final claim. -/
theorem claim_C10_duplicate_implicit_claims (O : Oracles) (sentences : List String)
    (p q : ProcessedSentence) (c : String)
    (hp : p ∈ (processSentencesMultiStep O sentences).processedSentences)
    (hc : c ∈ p.implicitClaims)
    (hct : (jsTrim c) ≠ "")
    (hq : q ∈ (processSentencesMultiStep O sentences).processedImplicitClaims)
    (hqf : q.finalClaim = some c) :
    2 ≤ (collectVerifiableClaims
      (processSentencesMultiStep O sentences).processedSentences
      (processSentencesMultiStep O sentences).processedImplicitClaims).count
      (jsTrim c) := by
  unfold collectVerifiableClaims
  rw [List.count_append]
  have hcne : c ≠ "" := by
    intro hc0
    rw [hc0] at hct
    exact hct rfl
  have hA : 0 < ((processSentencesMultiStep O sentences).processedSentences.flatMap
      fun sentence =>
        if sentence.implicitClaims ≠ [] then
          (sentence.implicitClaims.filter fun claim => (jsTrim claim) ≠ "").map jsTrim
        else
          match sentence.finalClaim with
          | some f => if f ≠ "" ∧ (jsTrim f) ≠ "" then [(jsTrim f)] else []
          | none => []).count (jsTrim c) := by
    rw [List.count_pos_iff]
    rw [List.mem_flatMap]
    refine ⟨p, hp, ?_⟩
    have hne : p.implicitClaims ≠ [] := by
      intro h0
      rw [h0] at hc
      exact absurd hc (List.not_mem_nil c)
    simp only [hne, if_pos, ne_eq, not_false_iff, ite_true]
    exact List.mem_map_of_mem jsTrim
      (List.mem_filter.mpr ⟨hc, by simpa using hct⟩)
  have hB : 0 < (((processSentencesMultiStep O sentences).processedImplicitClaims.filter
      fun sentence =>
        match sentence.finalClaim with
        | some f => f ≠ "" ∧ (jsTrim f) ≠ ""
        | none => False).map
      fun sentence => ((sentence.finalClaim.map jsTrim).getD "")).count (jsTrim c) := by
    rw [List.count_pos_iff]
    refine List.mem_map.mpr ⟨q, ?_, ?_⟩
    · refine List.mem_filter.mpr ⟨hq, ?_⟩
      rw [hqf]
      simpa using ⟨hcne, hct⟩
    · rw [hqf]
      rfl
  omega

def c10Oracles : Oracles where
  categorize := fun items => some (items.map fun it =>
    { id := it.id, sentence := it.sentence,
      category := .NotVerifiable, reasoning := "opinion" })
  rewrite := fun _ => none
  extractImplicit := fun items => some (items.map fun it =>
    { id := it.id, originalSentence := it.sentence, hasImplicitClaims := true,
      implicitClaims := ["The moon orbits the Earth."], reasoning := "implicit" })
  disambiguate := fun _ => none

def c10Parent : ProcessedSentence :=
  { originalSentence := "Is the moon above?"
    category := .NotVerifiable
    categoryReasoning := "opinion"
    rewrittenSentence := none
    rewriteReasoning := none
    isAmbiguous := false
    ambiguityType := none
    ambiguityReasoning := none
    canBeDisambiguated := none
    disambiguationReasoning := none
    disambiguatedSentence := none
    clarityReasoning := none
    finalClaim := none
    implicitClaims := ["The moon orbits the Earth."]
    implicitClaimsReasoning := some "implicit" }

def c10Reprocessed : ProcessedSentence :=
  { originalSentence := "The moon orbits the Earth."
    category := .NotVerifiable
    categoryReasoning := "opinion"
    rewrittenSentence := none
    rewriteReasoning := none
    isAmbiguous := false
    ambiguityType := none
    ambiguityReasoning := none
    canBeDisambiguated := none
    disambiguationReasoning := none
    disambiguatedSentence := none
    clarityReasoning := none
    finalClaim := some "The moon orbits the Earth."
    implicitClaims := []
    implicitClaimsReasoning := none }

theorem claim_C10_witness :
    2 ≤ (collectVerifiableClaims
      (processSentencesMultiStep c10Oracles ["Is the moon above?"]).processedSentences
      (processSentencesMultiStep c10Oracles
        ["Is the moon above?"]).processedImplicitClaims).count
      (jsTrim "The moon orbits the Earth.") :=
  claim_C10_duplicate_implicit_claims c10Oracles ["Is the moon above?"]
    c10Parent c10Reprocessed "The moon orbits the Earth."
    (by decide) (by decide) (by decide) (by decide) (by decide)

/-! ### Rate-limited scheduler (factCheck route, lines 34-140)

The scheduling loop owns three pieces of state: the rolling request-time
window, the rolling token-event window and the pending queue.  One loop
iteration (lines 80-115) prunes the windows, computes the remaining
budgets, sorts the queue by estimated cost and greedily dispatches the
cheapest items that fit both budgets.  Timestamps are `Date.now()`
values, modelled as `Nat` milliseconds; an execution is a trace of loop
iterations, each with its observed time and the items enqueued since the
previous iteration. -/

def MAX_RETRIES : Nat := 3

def INITIAL_RETRY_DELAY : Nat := 1000

def MAX_RETRY_DELAY : Nat := 60000

def TOKENS_PER_MINUTE_LIMIT : Nat := 10000

def REQUESTS_PER_MINUTE_LIMIT : Nat := 60

structure QueueItem where
  estimatedTokens : Nat
deriving DecidableEq

structure TokenEvent where
  ts : Nat
  tokens : Nat
deriving DecidableEq

structure SchedState where
  lastRequestTimes : List Nat
  tokenEvents : List TokenEvent
  pendingQueue : List QueueItem
deriving DecidableEq

def initialSchedState : SchedState := ⟨[], [], []⟩

structure DispatchResult where
  launched : List QueueItem
  remaining : List QueueItem
  reqSlots : Nat
  tokenBudget : Nat
deriving DecidableEq

/-- The inner while-loop (lines 91-115): take from the front of the sorted
queue while request slots remain and the head fits the token budget. -/
def dispatchFromQueue : List QueueItem → Nat → Nat → DispatchResult
  | [], reqSlots, tokenBudget => ⟨[], [], reqSlots, tokenBudget⟩
  | next :: rest, reqSlots, tokenBudget =>
    if reqSlots = 0 then ⟨[], next :: rest, reqSlots, tokenBudget⟩
    else if next.estimatedTokens ≤ tokenBudget then
      let r := dispatchFromQueue rest (reqSlots - 1) (tokenBudget - next.estimatedTokens)
      ⟨next :: r.launched, r.remaining, r.reqSlots, r.tokenBudget⟩
    else ⟨[], next :: rest, reqSlots, tokenBudget⟩

structure StepLog where
  now : Nat
  reqSlots : Nat
  tokenBudget : Nat
  launched : List QueueItem
deriving DecidableEq

/-- One iteration of `scheduleLoop` at time `now`: prune events older than
60 seconds, compute the remaining RPM/TPM budgets (`Math.max(0, _)` is
`Nat` subtraction), sort the queue by ascending estimated cost and
dispatch greedily.  Every dispatch is recorded in both rolling windows. -/
def schedStep (now : Nat) (st : SchedState) : SchedState × StepLog :=
  let lastRequestTimes := st.lastRequestTimes.filter fun t => now - t < 60000
  let tokenEvents := st.tokenEvents.filter fun e => now - e.ts < 60000
  let tokensUsed := (tokenEvents.map (·.tokens)).sum
  let reqSlots := REQUESTS_PER_MINUTE_LIMIT - lastRequestTimes.length
  let tokenBudget := TOKENS_PER_MINUTE_LIMIT - tokensUsed
  let sorted := st.pendingQueue.mergeSort
    fun x y => x.estimatedTokens ≤ y.estimatedTokens
  let d := dispatchFromQueue sorted reqSlots tokenBudget
  (⟨lastRequestTimes ++ List.replicate d.launched.length now,
    tokenEvents ++ d.launched.map fun it => ⟨now, it.estimatedTokens⟩,
    d.remaining⟩,
   ⟨now, reqSlots, tokenBudget, d.launched⟩)

/-- A run of the scheduling loop: each trace element is one loop iteration,
given as the observed `Date.now()` and the items enqueued by
`enqueueRateLimited` since the previous iteration. -/
def runSched : SchedState → List (Nat × List QueueItem) → SchedState × List StepLog
  | st, [] => (st, [])
  | st, (now, arrivals) :: rest =>
    let stepRes := schedStep now { st with pendingQueue := st.pendingQueue ++ arrivals }
    let restRes := runSched stepRes.1 rest
    (restRes.1, stepRes.2 :: restRes.2)

/-- All requests dispatched during a run, with their timestamps and
estimated token costs. -/
def dispatchEvents : List StepLog → List TokenEvent
  | [] => []
  | lg :: logs =>
    (lg.launched.map fun it => ⟨lg.now, it.estimatedTokens⟩) ++ dispatchEvents logs

/-- Membership of an event's timestamp in the 60-second window starting
at `a`. -/
def inWindow (a : Nat) (e : TokenEvent) : Bool :=
  a ≤ e.ts ∧ e.ts < a + 60000

theorem dispatchFromQueue_bounds (q : List QueueItem) (s b : Nat) :
    (dispatchFromQueue q s b).launched.length ≤ s ∧
    ((dispatchFromQueue q s b).launched.map (·.estimatedTokens)).sum ≤ b := by
  induction q generalizing s b with
  | nil => simp [dispatchFromQueue]
  | cons next rest ih =>
    by_cases hs : s = 0
    · simp [dispatchFromQueue, hs]
    · by_cases hfit : next.estimatedTokens ≤ b
      · have := ih (s - 1) (b - next.estimatedTokens)
        simp only [dispatchFromQueue, hs, if_false, hfit, if_true]
        constructor
        · simp only [List.length_cons]
          omega
        · simp only [List.map_cons, List.sum_cons]
          omega
      · simp [dispatchFromQueue, hs, hfit]

theorem filter_subsume {α : Type} {p q : α → Bool} {l : List α}
    (h : ∀ x ∈ l, p x = true → q x = true) :
    (l.filter q).filter p = l.filter p := by
  induction l with
  | nil => rfl
  | cons x xs ih =>
    have ihx := ih fun y hy => h y (List.mem_cons_of_mem x hy)
    by_cases hp : p x = true
    · have hq := h x (List.mem_cons_self x xs) hp
      simp [List.filter_cons, hp, hq, ihx]
    · by_cases hq : q x = true <;> simp [List.filter_cons, hp, hq, ihx]

theorem tokSum_filter_le (p : TokenEvent → Bool) (l : List TokenEvent) :
    ((l.filter p).map (·.tokens)).sum ≤ (l.map (·.tokens)).sum :=
  ((show (l.filter p).Sublist l from List.filter_sublist l).map _).sum_le_sum
    fun _ _ => Nat.zero_le _

/-- Timestamps of dispatched events are iteration times of the trace. -/
theorem dispatchEvents_ts :
    ∀ (trace : List (Nat × List QueueItem)) (st : SchedState) (e : TokenEvent),
      e ∈ dispatchEvents (runSched st trace).2 → e.ts ∈ trace.map Prod.fst := by
  intro trace
  induction trace with
  | nil => intro st e he; simp [runSched, dispatchEvents] at he
  | cons head rest ih =>
    intro st e he
    obtain ⟨now, arrivals⟩ := head
    simp only [runSched, dispatchEvents, List.mem_append] at he
    rcases he with he | he
    · obtain ⟨it, -, rfl⟩ := List.mem_map.mp he
      simp [schedStep]
    · simp only [List.map_cons, List.mem_cons]
      exact Or.inr (ih _ e he)

/-- Every step of a run dispatches at most its computed request slots and
at most its computed token budget (smallest-cost-first greedy fill). -/
theorem runSched_logs_bounds :
    ∀ (trace : List (Nat × List QueueItem)) (st : SchedState),
      ∀ lg ∈ (runSched st trace).2,
        lg.launched.length ≤ lg.reqSlots ∧
        (lg.launched.map (·.estimatedTokens)).sum ≤ lg.tokenBudget := by
  intro trace
  induction trace with
  | nil => intro st lg hlg; simp [runSched] at hlg
  | cons head rest ih =>
    intro st lg hlg
    obtain ⟨now, arrivals⟩ := head
    simp only [runSched, List.mem_cons] at hlg
    rcases hlg with hlg | hlg
    · rw [hlg]
      exact dispatchFromQueue_bounds _ _ _
    · exact ih _ lg hlg

theorem runSched_cons (st : SchedState) (now : Nat) (arrivals : List QueueItem)
    (rest : List (Nat × List QueueItem)) :
    runSched st ((now, arrivals) :: rest) =
      ((runSched (schedStep now
          { st with pendingQueue := st.pendingQueue ++ arrivals }).1 rest).1,
       (schedStep now { st with pendingQueue := st.pendingQueue ++ arrivals }).2 ::
       (runSched (schedStep now
          { st with pendingQueue := st.pendingQueue ++ arrivals }).1 rest).2) := rfl

theorem schedStep_snd_now (now : Nat) (st : SchedState) :
    (schedStep now st).2.now = now := rfl

theorem schedStep_launched_len (now : Nat) (st : SchedState) :
    (schedStep now st).2.launched.length ≤
      REQUESTS_PER_MINUTE_LIMIT -
        (st.lastRequestTimes.filter fun t => now - t < 60000).length :=
  (dispatchFromQueue_bounds _ _ _).1

theorem schedStep_launched_sum (now : Nat) (st : SchedState) :
    ((schedStep now st).2.launched.map (·.estimatedTokens)).sum ≤
      TOKENS_PER_MINUTE_LIMIT -
        ((st.tokenEvents.filter fun e => now - e.ts < 60000).map (·.tokens)).sum :=
  (dispatchFromQueue_bounds _ _ _).2

theorem schedStep_fst_times (now : Nat) (st : SchedState) :
    (schedStep now st).1.lastRequestTimes =
      (st.lastRequestTimes.filter fun t => now - t < 60000) ++
        List.replicate (schedStep now st).2.launched.length now := rfl

theorem schedStep_fst_tokens (now : Nat) (st : SchedState) :
    (schedStep now st).1.tokenEvents =
      (st.tokenEvents.filter fun e => now - e.ts < 60000) ++
        (schedStep now st).2.launched.map fun it => ⟨now, it.estimatedTokens⟩ := rfl

/-- Rolling-window request safety, strengthened for the induction: future
dispatches landing in the window `[a, a+60000)` plus the still-relevant
state entries never exceed the RPM limit. -/
theorem sched_window_requests (a : Nat) :
    ∀ (trace : List (Nat × List QueueItem)) (st : SchedState) (n0 : Nat),
      (trace.map Prod.fst).Pairwise (· ≤ ·) →
      (∀ t ∈ trace.map Prod.fst, n0 ≤ t) →
      (∀ t ∈ st.lastRequestTimes, t ≤ n0) →
      st.lastRequestTimes.length ≤ REQUESTS_PER_MINUTE_LIMIT →
      ((dispatchEvents (runSched st trace).2).filter (inWindow a)).length +
        (st.lastRequestTimes.filter fun t => a ≤ t).length
        ≤ REQUESTS_PER_MINUTE_LIMIT := by
  intro trace
  induction trace with
  | nil =>
    intro st n0 _ _ _ hlen
    have h1 : (st.lastRequestTimes.filter fun t => a ≤ t).length ≤
        st.lastRequestTimes.length := List.length_filter_le _ _
    simp only [runSched, dispatchEvents, List.filter_nil, List.length_nil]
    omega
  | cons head rest ih =>
    rcases head with ⟨now, arrivals⟩
    intro st n0 hpair hge htle hlen
    simp only [List.map_cons] at hpair hge
    have hn0now : n0 ≤ now := hge now (List.mem_cons_self _ _)
    obtain ⟨hrestge, hrestpair⟩ := List.pairwise_cons.mp hpair
    have hplen : (st.lastRequestTimes.filter fun t => now - t < 60000).length ≤
        st.lastRequestTimes.length := List.length_filter_le _ _
    have hLlen : (schedStep now
          { st with pendingQueue := st.pendingQueue ++ arrivals }).2.launched.length ≤
        REQUESTS_PER_MINUTE_LIMIT -
          (st.lastRequestTimes.filter fun t => now - t < 60000).length :=
      schedStep_launched_len now _
    have hnewtimes : (schedStep now
          { st with pendingQueue := st.pendingQueue ++ arrivals }).1.lastRequestTimes =
        (st.lastRequestTimes.filter fun t => now - t < 60000) ++
          List.replicate (schedStep now
            { st with pendingQueue := st.pendingQueue ++ arrivals }).2.launched.length
            now := rfl
    have hIH := ih (schedStep now
        { st with pendingQueue := st.pendingQueue ++ arrivals }).1 now hrestpair
      (fun t ht => hrestge t ht)
      (by
        intro t ht
        rw [hnewtimes] at ht
        rcases List.mem_append.mp ht with ht | ht
        · exact le_trans (htle t (List.mem_filter.mp ht).1) hn0now
        · exact le_of_eq (List.eq_of_mem_replicate ht))
      (by
        rw [hnewtimes, List.length_append, List.length_replicate]
        omega)
    have hevents : dispatchEvents (runSched st ((now, arrivals) :: rest)).2 =
        ((schedStep now
            { st with pendingQueue := st.pendingQueue ++ arrivals }).2.launched.map
          fun it => (⟨now, it.estimatedTokens⟩ : TokenEvent)) ++
        dispatchEvents (runSched (schedStep now
          { st with pendingQueue := st.pendingQueue ++ arrivals }).1 rest).2 := rfl
    rw [hevents, List.filter_append, List.length_append]
    by_cases hfar : a + 60000 ≤ now
    · have hhead : (((schedStep now
            { st with pendingQueue := st.pendingQueue ++ arrivals }).2.launched.map
          fun it => (⟨now, it.estimatedTokens⟩ : TokenEvent)).filter (inWindow a)) = [] := by
        rw [List.filter_eq_nil_iff]
        intro e he
        obtain ⟨it, -, rfl⟩ := List.mem_map.mp he
        simp only [inWindow, decide_eq_true_eq]
        omega
      have hrest : ((dispatchEvents (runSched (schedStep now
            { st with pendingQueue := st.pendingQueue ++ arrivals }).1 rest).2).filter
          (inWindow a)) = [] := by
        rw [List.filter_eq_nil_iff]
        intro e he
        have hts := dispatchEvents_ts rest _ e he
        have hnow := hrestge _ hts
        simp only [inWindow, decide_eq_true_eq]
        omega
      have hstfil : (st.lastRequestTimes.filter fun t => a ≤ t).length ≤
          st.lastRequestTimes.length := List.length_filter_le _ _
      rw [hhead, hrest]
      simp only [List.length_nil]
      omega
    · by_cases hax : a ≤ now
      · have hhead : (((schedStep now
              { st with pendingQueue := st.pendingQueue ++ arrivals }).2.launched.map
            fun it => (⟨now, it.estimatedTokens⟩ : TokenEvent)).filter (inWindow a)) =
            ((schedStep now
              { st with pendingQueue := st.pendingQueue ++ arrivals }).2.launched.map
            fun it => (⟨now, it.estimatedTokens⟩ : TokenEvent)) := by
          rw [List.filter_eq_self]
          intro e he
          obtain ⟨it, -, rfl⟩ := List.mem_map.mp he
          simp only [inWindow, decide_eq_true_eq]
          omega
        have hsub : ((st.lastRequestTimes.filter fun t => now - t < 60000).filter
            fun t => a ≤ t) = st.lastRequestTimes.filter fun t => a ≤ t := by
          apply filter_subsume
          intro t ht hat
          simp only [decide_eq_true_eq] at hat ⊢
          omega
        have hrepl : ((List.replicate (schedStep now
              { st with pendingQueue := st.pendingQueue ++ arrivals }).2.launched.length
              now).filter fun t => a ≤ t) =
            List.replicate (schedStep now
              { st with pendingQueue := st.pendingQueue ++ arrivals }).2.launched.length
              now := by
          rw [List.filter_eq_self]
          intro t ht
          rw [List.eq_of_mem_replicate ht]
          simpa using hax
        rw [hnewtimes, List.filter_append, hsub, hrepl, List.length_append,
          List.length_replicate] at hIH
        rw [hhead, List.length_map]
        omega
      · have hstfil : (st.lastRequestTimes.filter fun t => a ≤ t) = [] := by
          rw [List.filter_eq_nil_iff]
          intro t ht
          have := htle t ht
          simp only [decide_eq_true_eq]
          omega
        have hhead : (((schedStep now
              { st with pendingQueue := st.pendingQueue ++ arrivals }).2.launched.map
            fun it => (⟨now, it.estimatedTokens⟩ : TokenEvent)).filter (inWindow a)) = [] := by
          rw [List.filter_eq_nil_iff]
          intro e he
          obtain ⟨it, -, rfl⟩ := List.mem_map.mp he
          simp only [inWindow, decide_eq_true_eq]
          omega
        rw [hhead, hstfil]
        simp only [List.length_nil]
        omega

/-- Rolling-window token safety, strengthened for the induction: estimated
tokens of future dispatches landing in the window `[a, a+60000)` plus the
still-relevant state events never exceed the TPM limit. -/
theorem sched_window_tokens (a : Nat) :
    ∀ (trace : List (Nat × List QueueItem)) (st : SchedState) (n0 : Nat),
      (trace.map Prod.fst).Pairwise (· ≤ ·) →
      (∀ t ∈ trace.map Prod.fst, n0 ≤ t) →
      (∀ e ∈ st.tokenEvents, e.ts ≤ n0) →
      (st.tokenEvents.map (·.tokens)).sum ≤ TOKENS_PER_MINUTE_LIMIT →
      (((dispatchEvents (runSched st trace).2).filter (inWindow a)).map
          (·.tokens)).sum +
        ((st.tokenEvents.filter fun e => a ≤ e.ts).map (·.tokens)).sum
        ≤ TOKENS_PER_MINUTE_LIMIT := by
  intro trace
  induction trace with
  | nil =>
    intro st n0 _ _ _ hsum
    have h1 := tokSum_filter_le (fun e => a ≤ e.ts) st.tokenEvents
    simp only [runSched, dispatchEvents, List.filter_nil, List.map_nil,
      List.sum_nil]
    omega
  | cons head rest ih =>
    rcases head with ⟨now, arrivals⟩
    intro st n0 hpair hge hele hsum
    simp only [List.map_cons] at hpair hge
    have hn0now : n0 ≤ now := hge now (List.mem_cons_self _ _)
    obtain ⟨hrestge, hrestpair⟩ := List.pairwise_cons.mp hpair
    have hpsum : ((st.tokenEvents.filter fun e => now - e.ts < 60000).map
        (·.tokens)).sum ≤ (st.tokenEvents.map (·.tokens)).sum :=
      tokSum_filter_le _ _
    have hLsum : (((schedStep now
          { st with pendingQueue := st.pendingQueue ++ arrivals }).2.launched.map
        (·.estimatedTokens)).sum) ≤
        TOKENS_PER_MINUTE_LIMIT -
          ((st.tokenEvents.filter fun e => now - e.ts < 60000).map (·.tokens)).sum :=
      schedStep_launched_sum now _
    have hnewev : (schedStep now
          { st with pendingQueue := st.pendingQueue ++ arrivals }).1.tokenEvents =
        (st.tokenEvents.filter fun e => now - e.ts < 60000) ++
          (schedStep now
            { st with pendingQueue := st.pendingQueue ++ arrivals }).2.launched.map
            (fun it => (⟨now, it.estimatedTokens⟩ : TokenEvent)) := rfl
    have hmapmap : (((schedStep now
          { st with pendingQueue := st.pendingQueue ++ arrivals }).2.launched.map
        fun it => (⟨now, it.estimatedTokens⟩ : TokenEvent)).map (·.tokens)) =
        (schedStep now
          { st with pendingQueue := st.pendingQueue ++ arrivals }).2.launched.map
          (·.estimatedTokens) := by
      rw [List.map_map]
      rfl
    have hIH := ih (schedStep now
        { st with pendingQueue := st.pendingQueue ++ arrivals }).1 now hrestpair
      (fun t ht => hrestge t ht)
      (by
        intro e he
        rw [hnewev] at he
        rcases List.mem_append.mp he with he | he
        · exact le_trans (hele e (List.mem_filter.mp he).1) hn0now
        · obtain ⟨it, -, rfl⟩ := List.mem_map.mp he
          exact le_refl now)
      (by
        rw [hnewev, List.map_append, List.sum_append, hmapmap]
        omega)
    have hevents : dispatchEvents (runSched st ((now, arrivals) :: rest)).2 =
        ((schedStep now
            { st with pendingQueue := st.pendingQueue ++ arrivals }).2.launched.map
          fun it => (⟨now, it.estimatedTokens⟩ : TokenEvent)) ++
        dispatchEvents (runSched (schedStep now
          { st with pendingQueue := st.pendingQueue ++ arrivals }).1 rest).2 := rfl
    rw [hevents, List.filter_append, List.map_append, List.sum_append]
    by_cases hfar : a + 60000 ≤ now
    · have hhead : (((schedStep now
            { st with pendingQueue := st.pendingQueue ++ arrivals }).2.launched.map
          fun it => (⟨now, it.estimatedTokens⟩ : TokenEvent)).filter (inWindow a)) = [] := by
        rw [List.filter_eq_nil_iff]
        intro e he
        obtain ⟨it, -, rfl⟩ := List.mem_map.mp he
        simp only [inWindow, decide_eq_true_eq]
        omega
      have hrest : ((dispatchEvents (runSched (schedStep now
            { st with pendingQueue := st.pendingQueue ++ arrivals }).1 rest).2).filter
          (inWindow a)) = [] := by
        rw [List.filter_eq_nil_iff]
        intro e he
        have hts := dispatchEvents_ts rest _ e he
        have hnow := hrestge _ hts
        simp only [inWindow, decide_eq_true_eq]
        omega
      have hstfil := tokSum_filter_le (fun e => a ≤ e.ts) st.tokenEvents
      rw [hhead, hrest]
      simp only [List.map_nil, List.sum_nil]
      omega
    · by_cases hax : a ≤ now
      · have hhead : (((schedStep now
              { st with pendingQueue := st.pendingQueue ++ arrivals }).2.launched.map
            fun it => (⟨now, it.estimatedTokens⟩ : TokenEvent)).filter (inWindow a)) =
            ((schedStep now
              { st with pendingQueue := st.pendingQueue ++ arrivals }).2.launched.map
            fun it => (⟨now, it.estimatedTokens⟩ : TokenEvent)) := by
          rw [List.filter_eq_self]
          intro e he
          obtain ⟨it, -, rfl⟩ := List.mem_map.mp he
          simp only [inWindow, decide_eq_true_eq]
          omega
        have hsub : ((st.tokenEvents.filter fun e => now - e.ts < 60000).filter
            fun e => a ≤ e.ts) = st.tokenEvents.filter fun e => a ≤ e.ts := by
          apply filter_subsume
          intro e he hae
          simp only [decide_eq_true_eq] at hae ⊢
          omega
        have hlaunch : (((schedStep now
              { st with pendingQueue := st.pendingQueue ++ arrivals }).2.launched.map
            fun it => (⟨now, it.estimatedTokens⟩ : TokenEvent)).filter
            fun e => a ≤ e.ts) =
            ((schedStep now
              { st with pendingQueue := st.pendingQueue ++ arrivals }).2.launched.map
            fun it => (⟨now, it.estimatedTokens⟩ : TokenEvent)) := by
          rw [List.filter_eq_self]
          intro e he
          obtain ⟨it, -, rfl⟩ := List.mem_map.mp he
          simpa using hax
        rw [hnewev, List.filter_append, hsub, hlaunch, List.map_append,
          List.sum_append, hmapmap] at hIH
        rw [hhead, hmapmap]
        omega
      · have hstfil : (st.tokenEvents.filter fun e => a ≤ e.ts) = [] := by
          rw [List.filter_eq_nil_iff]
          intro e he
          have := hele e he
          simp only [decide_eq_true_eq]
          omega
        have hhead : (((schedStep now
              { st with pendingQueue := st.pendingQueue ++ arrivals }).2.launched.map
            fun it => (⟨now, it.estimatedTokens⟩ : TokenEvent)).filter (inWindow a)) = [] := by
          rw [List.filter_eq_nil_iff]
          intro e he
          obtain ⟨it, -, rfl⟩ := List.mem_map.mp he
          simp only [inWindow, decide_eq_true_eq]
          omega
        rw [hhead, hstfil]
        simp only [List.map_nil, List.sum_nil]
        omega

/-- C2: scheduler safety invariant.  For every execution of the scheduling
loop (any nondecreasing sequence of iteration times with arbitrary
arrivals, starting from the empty state) and every 60-second window
`[a, a+60000)`, the number of dispatched requests with timestamp in the
window is at most the RPM limit (60) and the sum of their estimated token
costs is at most the TPM limit (10000); moreover no iteration dispatches
beyond its computed request slots or its remaining token budget — in
particular, since dispatch is greedy front-to-back, no dispatched task's
estimated cost exceeds the token budget remaining when it is taken. -/
theorem claim_C2_scheduler_window_safety (trace : List (Nat × List QueueItem))
    (hmono : (trace.map Prod.fst).Pairwise (· ≤ ·)) :
    (∀ a,
      ((dispatchEvents (runSched initialSchedState trace).2).filter
        (inWindow a)).length ≤ REQUESTS_PER_MINUTE_LIMIT ∧
      (((dispatchEvents (runSched initialSchedState trace).2).filter
        (inWindow a)).map (·.tokens)).sum ≤ TOKENS_PER_MINUTE_LIMIT) ∧
    ∀ lg ∈ (runSched initialSchedState trace).2,
      lg.launched.length ≤ lg.reqSlots ∧
      (lg.launched.map (·.estimatedTokens)).sum ≤ lg.tokenBudget := by
  refine ⟨?_, runSched_logs_bounds trace initialSchedState⟩
  intro a
  have hreq := sched_window_requests a trace initialSchedState 0 hmono
    (fun t _ => Nat.zero_le t)
    (by intro t ht; simp [initialSchedState] at ht)
    (by simp [initialSchedState])
  have htok := sched_window_tokens a trace initialSchedState 0 hmono
    (fun t _ => Nat.zero_le t)
    (by intro e he; simp [initialSchedState] at he)
    (by simp [initialSchedState])
  constructor
  · simpa [initialSchedState] using hreq
  · simpa [initialSchedState] using htok

def c2Trace : List (Nat × List QueueItem) :=
  [(0, [⟨500⟩, ⟨9800⟩]), (30000, [⟨100⟩]), (70000, [⟨4000⟩, ⟨4000⟩, ⟨4000⟩])]

theorem claim_C2_witness :
    ((dispatchEvents (runSched initialSchedState c2Trace).2).filter
      (inWindow 0)).length ≤ REQUESTS_PER_MINUTE_LIMIT ∧
    (((dispatchEvents (runSched initialSchedState c2Trace).2).filter
      (inWindow 0)).map (·.tokens)).sum ≤ TOKENS_PER_MINUTE_LIMIT :=
  (claim_C2_scheduler_window_safety c2Trace (by decide)).1 0

/-! ### Retry policy (`withRetry`, factCheck route lines 142-223)

An error is characterised by whether it is a detected rate-limit signal
(message contains `Rate limit reached` or HTTP status 429) and by an
optional numeric provider hint in seconds (`retry-after` or
`x-ratelimit-reset-tokens` header).  The fallible call is modelled as a
function from the attempt number to its outcome; the embedding returns
the final outcome together with the list of waits (in ms) performed, so
the backoff schedule itself is observable. -/

structure RetryError where
  isRateLimit : Bool
  retryAfterSecs : Option Nat
deriving DecidableEq

def withRetry {α : Type} (fn : Nat → Except RetryError α) :
    Nat → Nat → Nat → Except RetryError α × List Nat
  | attempt, retries, delay =>
    match fn attempt with
    | .ok v => (.ok v, [])
    | .error e =>
      match retries with
      | 0 => (.error e, [])
      | retriesLeft + 1 =>
        let next := withRetry fn (attempt + 1) retriesLeft
          (min (delay * 2) MAX_RETRY_DELAY)
        if e.isRateLimit then
          (next.1, min ((e.retryAfterSecs.getD delay) * 1000) MAX_RETRY_DELAY :: next.2)
        else
          (next.1, delay :: next.2)

/-- The wait the code performs before one retry at current backoff `delay`:
a rate-limit error waits `min((hint ?? delay) * 1000, 60000)` ms — note the
multiplication by 1000 applies to the fallback `delay` too — while any
other error waits `delay` ms. -/
def retryWait (e : RetryError) (delay : Nat) : Nat :=
  if e.isRateLimit then min ((e.retryAfterSecs.getD delay) * 1000) MAX_RETRY_DELAY
  else delay

theorem withRetry_error_succ {α : Type} (fn : Nat → Except RetryError α)
    (attempt retriesLeft delay : Nat) (e : RetryError)
    (h : fn attempt = .error e) :
    withRetry fn attempt (retriesLeft + 1) delay =
      ((withRetry fn (attempt + 1) retriesLeft (min (delay * 2) MAX_RETRY_DELAY)).1,
       retryWait e delay ::
         (withRetry fn (attempt + 1) retriesLeft (min (delay * 2) MAX_RETRY_DELAY)).2) := by
  conv_lhs => rw [withRetry]
  rw [h]
  by_cases hrl : e.isRateLimit <;> simp [retryWait, hrl]

theorem withRetry_exhausted {α : Type} (fn : Nat → Except RetryError α)
    (attempt delay : Nat) (e : RetryError) (h : fn attempt = .error e) :
    withRetry fn attempt 0 delay = (.error e, []) := by
  conv_lhs => rw [withRetry]
  rw [h]

/-- C9 (amended): every dispatched call is wrapped in the retry policy with
budget `MAX_RETRIES = 3` and initial delay 1000 ms.  When all four attempts
fail, exactly three waits are performed, at backoff delays 1000, 2000,
4000 ms; a rate-limit error waits `min(hint*1000, 60000)` ms when a numeric
provider hint is present and otherwise `min(delay*1000, 60000)` ms (which
is the 60000 ms cap for every reachable delay), while any other error waits
the current backoff delay; the last error is returned to the single
caller. -/
theorem claim_C9_retry_policy {α : Type} (fn : Nat → Except RetryError α)
    (e0 e1 e2 e3 : RetryError)
    (h0 : fn 0 = .error e0) (h1 : fn 1 = .error e1)
    (h2 : fn 2 = .error e2) (h3 : fn 3 = .error e3) :
    withRetry fn 0 MAX_RETRIES INITIAL_RETRY_DELAY =
      (.error e3, [retryWait e0 1000, retryWait e1 2000, retryWait e2 4000]) := by
  show withRetry fn 0 (2 + 1) 1000 = _
  rw [withRetry_error_succ fn 0 2 1000 e0 h0]
  rw [show (0 : Nat) + 1 = 1 from rfl, show min (1000 * 2) MAX_RETRY_DELAY = 2000 from rfl,
    show (2 : Nat) = 1 + 1 from rfl]
  rw [withRetry_error_succ fn 1 1 2000 e1 h1]
  rw [show (1 : Nat) + 1 = 2 from rfl, show min (2000 * 2) MAX_RETRY_DELAY = 4000 from rfl,
    show (1 : Nat) = 0 + 1 from rfl]
  rw [withRetry_error_succ fn 2 0 4000 e2 h2]
  rw [show (2 : Nat) + 1 = 3 from rfl]
  rw [withRetry_exhausted fn 3 (min (4000 * 2) MAX_RETRY_DELAY) e3 h3]

theorem claim_C9_witness :
    withRetry (fun _ => (Except.error ⟨false, none⟩ : Except RetryError Unit))
        0 MAX_RETRIES INITIAL_RETRY_DELAY =
      (Except.error ⟨false, none⟩, [1000, 2000, 4000]) := by
  have h := claim_C9_retry_policy
    (fun _ => (Except.error ⟨false, none⟩ : Except RetryError Unit))
    ⟨false, none⟩ ⟨false, none⟩ ⟨false, none⟩ ⟨false, none⟩ rfl rfl rfl rfl
  exact h.trans rfl

/-- The wait sequence the claim as stated predicts for hint-less
rate-limit errors: plain exponential backoff with initial delay 1000 ms
doubling each attempt (capped at 60000 ms). -/
def claimedBackoffWaits : List Nat := [1000, 2000, 4000]

/-- C9 counterexample: for a call that keeps failing with a rate-limit
error carrying no provider hint, the code waits 60000 ms before every
retry (`min(delay * 1000, 60000)` — the backoff delay is multiplied by
1000 as if it were in seconds), not the claimed exponential backoff
1000, 2000, 4000 ms. -/
theorem claim_C9_counterexample :
    (withRetry (fun _ => (Except.error ⟨true, none⟩ : Except RetryError Unit))
        0 MAX_RETRIES INITIAL_RETRY_DELAY).2 = [60000, 60000, 60000] ∧
    (withRetry (fun _ => (Except.error ⟨true, none⟩ : Except RetryError Unit))
        0 MAX_RETRIES INITIAL_RETRY_DELAY).2 ≠ claimedBackoffWaits := by
  decide

/-! ### Evidence relevance selector (factCheck route, lines 225-305)

`generateEmbedding` wraps the external embedding service: a blank text is
not sent at all, and a thrown error or an invalid (non-array) response
yields the empty vector.  `splitIntoSentences` is the factCheck route's
splitter: `text.replace(/([.!?])\s+/g, '$1|').split('|')`, trimming and
dropping empty pieces.  Embedding vectors are real-valued. -/

def isSentenceTerm (c : Char) : Bool :=
  c = '.' ∨ c = '!' ∨ c = '?'

/-- Whether a character list starts with a whitespace character. -/
def headIsWs : List Char → Bool
  | [] => false
  | c :: _ => isJsWhitespace c

/-- One left-to-right pass of `text.replace(/([.!?])\s+/g, '$1|')`: after a
sentence terminator followed by whitespace, `|` is emitted and the whole
whitespace run of the match is consumed (`skipping = true` while inside
that run). -/
def replaceTermAux : Bool → List Char → List Char
  | _, [] => []
  | skipping, c :: rest =>
    if skipping ∧ isJsWhitespace c then replaceTermAux true rest
    else if isSentenceTerm c ∧ headIsWs rest then
      c :: '|' :: replaceTermAux true rest
    else
      c :: replaceTermAux false rest

def replaceTerminators (l : List Char) : List Char := replaceTermAux false l

/-- JavaScript `str.split('|')`. -/
def splitOnPipe : List Char → List (List Char)
  | [] => [[]]
  | c :: rest =>
    if c = '|' then [] :: splitOnPipe rest
    else
      match splitOnPipe rest with
      | [] => [[c]]
      | g :: gs => (c :: g) :: gs

/-- The factCheck route's sentence splitter (lines 257-265). -/
def splitIntoSentences (text : String) : List String :=
  if text = "" then []
  else
    ((splitOnPipe (replaceTerminators text.data)).map fun cs =>
      jsTrim (String.mk cs)).filter fun s => 0 < s.length

/-- `generateEmbedding` (lines 225-245): blank input short-circuits to the
empty vector; `api text = none` models a thrown/timed-out call or an
invalid response, which the `catch`/validation branches turn into `[]`. -/
def generateEmbedding (api : String → Option (List ℝ)) (text : String) :
    List ℝ :=
  if jsTrim text = "" then []
  else
    match api text with
    | some vals => vals
    | none => []

/-- `a.reduce((sum, val, i) => sum + val * (b[i] || 0), 0)`: the running
index into `b` is realised by walking `b`'s tail alongside `a`. -/
def dotProduct : List ℝ → List ℝ → ℝ
  | [], _ => 0
  | v :: a, b => v * b.headD 0 + dotProduct a b.tail

/-- `a.reduce((sum, val) => sum + val * val, 0)`. -/
def sumOfSquares (a : List ℝ) : ℝ :=
  a.foldl (fun sum val => sum + val * val) 0

noncomputable def magnitude (a : List ℝ) : ℝ :=
  Real.sqrt (sumOfSquares a)

/-- `cosineSimilarity` (lines 247-254). -/
noncomputable def cosineSimilarity (a b : List ℝ) : ℝ :=
  if a.length = 0 ∨ b.length = 0 ∨ a.length ≠ b.length then 0
  else
    let dotProd := dotProduct a b
    let magnitudeA := magnitude a
    let magnitudeB := magnitude b
    if magnitudeA = 0 ∨ magnitudeB = 0 then 0
    else dotProd / (magnitudeA * magnitudeB)

/-- `getTopSentences` (lines 268-305), with the embedding service as a
parameter.  The source's JavaScript sorts are stable, hence `mergeSort`. -/
noncomputable def getTopSentences (api : String → Option (List ℝ))
    (claim text : String) (maxSentences : Nat) : List String :=
  if jsTrim text = "" then []
  else
    let sentences := splitIntoSentences text
    if sentences.length ≤ maxSentences * 2 then sentences.take maxSentences
    else
      let embeddings := ([claim] ++ sentences).map (generateEmbedding api)
      let claimEmbedding := embeddings.headD []
      if claimEmbedding.length = 0 then sentences.take maxSentences
      else
        let sentenceScores := sentences.enum.map fun p =>
          (p.2, cosineSimilarity claimEmbedding (embeddings.getD (p.1 + 1) []))
        (((sentenceScores.mergeSort fun x y => y.2 ≤ x.2).take
            maxSentences).mergeSort fun x y =>
          sentences.indexOf x.1 ≤ sentences.indexOf y.1).map (·.1)

/-- The texts `getTopSentences` hands to `generateEmbedding` on one call:
none on the early exits, `[claim, ...sentences]` otherwise.  The code
recomputes this on every call — there is no cooldown state anywhere in the
module that could suppress it after an earlier failure. -/
def getTopSentencesEmbedTexts (claim text : String) (maxSentences : Nat) :
    List String :=
  if jsTrim text = "" then []
  else
    let sentences := splitIntoSentences text
    if sentences.length ≤ maxSentences * 2 then []
    else [claim] ++ sentences

theorem ws_not_term {c : Char} (h : isJsWhitespace c = true) :
    isSentenceTerm c = false := by
  simp only [isJsWhitespace, decide_eq_true_eq] at h
  rcases h with h | h | h | h | h | h | h <;> subst h <;> rfl

theorem ws_not_pipe {c : Char} (h : isJsWhitespace c = true) : ¬ c = '|' := by
  simp only [isJsWhitespace, decide_eq_true_eq] at h
  rcases h with h | h | h | h | h | h | h <;> subst h <;> decide

theorem jsTrim_eq_empty_iff (s : String) :
    jsTrim s = "" ↔ ∀ c ∈ s.data, isJsWhitespace c = true := by
  constructor
  · intro h
    have hdata : ((s.data.dropWhile isJsWhitespace).reverse.dropWhile
        isJsWhitespace).reverse = [] := congrArg String.data h
    rw [List.reverse_eq_nil_iff, List.dropWhile_eq_nil_iff] at hdata
    have h2 : ∀ c ∈ s.data.dropWhile isJsWhitespace, isJsWhitespace c = true := by
      intro c hc
      exact hdata c (List.mem_reverse.mpr hc)
    intro c hc
    rw [← List.takeWhile_append_dropWhile isJsWhitespace s.data] at hc
    rcases List.mem_append.mp hc with hc | hc
    · exact List.mem_takeWhile_imp hc
    · exact h2 c hc
  · intro h
    have h1 : s.data.dropWhile isJsWhitespace = [] :=
      List.dropWhile_eq_nil_iff.mpr h
    unfold jsTrim
    rw [h1]
    rfl

theorem replaceTerminators_of_ws :
    ∀ (l : List Char), (∀ c ∈ l, isJsWhitespace c = true) →
      replaceTerminators l = l := by
  intro l
  unfold replaceTerminators
  induction l with
  | nil => intro; rfl
  | cons c rest ih =>
    intro h
    have hterm : isSentenceTerm c = false :=
      ws_not_term (h c (List.mem_cons_self _ _))
    simp only [replaceTermAux]
    rw [if_neg (by simp), if_neg (by simp [hterm])]
    rw [ih fun x hx => h x (List.mem_cons_of_mem _ hx)]

theorem splitOnPipe_no_pipe :
    ∀ (l : List Char), (∀ c ∈ l, ¬ c = '|') → splitOnPipe l = [l] := by
  intro l
  induction l with
  | nil => intro; rfl
  | cons c rest ih =>
    intro h
    have hc : ¬ c = '|' := h c (List.mem_cons_self _ _)
    simp only [splitOnPipe, hc, if_false]
    rw [ih fun x hx => h x (List.mem_cons_of_mem _ hx)]

theorem splitIntoSentences_of_blank {text : String} (h : jsTrim text = "") :
    splitIntoSentences text = [] := by
  unfold splitIntoSentences
  by_cases h0 : text = ""
  · simp [h0]
  · rw [if_neg h0]
    have hws : ∀ c ∈ text.data, isJsWhitespace c = true :=
      (jsTrim_eq_empty_iff text).mp h
    rw [replaceTerminators_of_ws text.data hws,
      splitOnPipe_no_pipe text.data fun c hc => ws_not_pipe (hws c hc)]
    have htr : jsTrim (String.mk text.data) = "" := by
      rw [show String.mk text.data = text from rfl]
      exact h
    simp [htr]

/-- C7: for every claim and every source text whose sentence count is at
most `2K` (`K` = desired evidence count), the evidence selector performs
no similarity scoring — the result is independent of the embedding
service — and returns exactly the first `K` sentences of the source
verbatim, in original document order. -/
theorem claim_C7_short_source_shortcut (api : String → Option (List ℝ))
    (claim text : String) (maxSentences : Nat)
    (hshort : (splitIntoSentences text).length ≤ maxSentences * 2) :
    getTopSentences api claim text maxSentences =
      (splitIntoSentences text).take maxSentences := by
  unfold getTopSentences
  by_cases hblank : jsTrim text = ""
  · rw [if_pos hblank, splitIntoSentences_of_blank hblank, List.take_nil]
  · rw [if_neg hblank]
    dsimp only
    rw [if_pos hshort]

theorem claim_C7_witness :
    getTopSentences (fun _ => none) "The fox ran." "One fact. Two facts." 3 =
      (splitIntoSentences "One fact. Two facts.").take 3 :=
  claim_C7_short_source_shortcut (fun _ => none) "The fox ran."
    "One fact. Two facts." 3 (by decide)

/-- C6 (amended): when the embedding service fails on the claim text
(thrown error, timeout, quota exhaustion or invalid response all yield the
empty vector), evidence selection degrades to the first `K` sentences of
the source.  However, no cooldown window exists: the evidence selector
keeps no state, and every call whose source exceeds `2K` sentences hands
`[claim, ...sentences]` to the embedding wrapper again, regardless of any
earlier failure. -/
theorem claim_C6_embedding_failure_fallback (api : String → Option (List ℝ))
    (claim text : String) (maxSentences : Nat)
    (hfail : generateEmbedding api claim = []) :
    getTopSentences api claim text maxSentences =
      (splitIntoSentences text).take maxSentences ∧
    (¬ (splitIntoSentences text).length ≤ maxSentences * 2 →
      getTopSentencesEmbedTexts claim text maxSentences =
        claim :: splitIntoSentences text) := by
  constructor
  · unfold getTopSentences
    by_cases hblank : jsTrim text = ""
    · rw [if_pos hblank, splitIntoSentences_of_blank hblank, List.take_nil]
    · rw [if_neg hblank]
      dsimp only
      by_cases hshort : (splitIntoSentences text).length ≤ maxSentences * 2
      · rw [if_pos hshort]
      · rw [if_neg hshort]
        have hhead : (([claim] ++ splitIntoSentences text).map
            (generateEmbedding api)).headD [] = [] := by
          rw [show (([claim] ++ splitIntoSentences text).map
            (generateEmbedding api)).headD [] = generateEmbedding api claim from rfl]
          exact hfail
        rw [hhead]
        rw [if_pos (show ([] : List ℝ).length = 0 from rfl)]
  · intro hlong
    unfold getTopSentencesEmbedTexts
    by_cases hblank : jsTrim text = ""
    · exact absurd (by rw [splitIntoSentences_of_blank hblank]; simp) hlong
    · rw [if_neg hblank]
      dsimp only
      rw [if_neg hlong]
      rfl

theorem claim_C6_witness :
    getTopSentences (fun _ => none) "The fox ran."
        "A fox ran. A dog slept. A cat sat. Rain fell. Snow came. Wind blew. Sun rose." 3 =
      (splitIntoSentences
        "A fox ran. A dog slept. A cat sat. Rain fell. Snow came. Wind blew. Sun rose.").take 3 :=
  (claim_C6_embedding_failure_fallback (fun _ => none) "The fox ran."
    "A fox ran. A dog slept. A cat sat. Rain fell. Snow came. Wind blew. Sun rose." 3 rfl).1

/-- C6 counterexample: the claim's cooldown does not exist.  The evidence
selector is a pure per-call function with no cross-call state — after a
call in which every embedding fails (and which therefore falls back to
the first K sentences, first conjunct), an identical subsequent call
still submits `[claim, ...sentences]` for embedding (second conjunct)
instead of skipping embedding. -/
theorem claim_C6_counterexample :
    getTopSentences (fun _ => none) "The fox ran."
        "A fox ran. A dog slept. A cat sat. Rain fell. Snow came. Wind blew. Sun rose." 3 =
      (splitIntoSentences
        "A fox ran. A dog slept. A cat sat. Rain fell. Snow came. Wind blew. Sun rose.").take 3 ∧
    getTopSentencesEmbedTexts "The fox ran."
        "A fox ran. A dog slept. A cat sat. Rain fell. Snow came. Wind blew. Sun rose." 3 ≠ [] := by
  constructor
  · decide
  · decide

theorem dotProduct_comm : ∀ {a b : List ℝ}, a.length = b.length →
    dotProduct a b = dotProduct b a := by
  intro a
  induction a with
  | nil =>
    intro b h
    cases b with
    | nil => rfl
    | cons y ys => simp at h
  | cons x xs ih =>
    intro b h
    cases b with
    | nil => simp at h
    | cons y ys =>
      simp only [dotProduct, List.headD_cons, List.tail_cons]
      rw [ih (by simpa using h)]
      ring

/-- C8: `cosineSimilarity` is symmetric — for all vectors `a` and `b`,
`cosineSimilarity a b = cosineSimilarity b a` — and it returns 0 whenever
either input is empty, the two inputs have different lengths, or either
input has zero magnitude. -/
theorem claim_C8_cosine_similarity :
    (∀ a b : List ℝ, cosineSimilarity a b = cosineSimilarity b a) ∧
    (∀ a b : List ℝ,
      a = [] ∨ b = [] ∨ a.length ≠ b.length ∨
        magnitude a = 0 ∨ magnitude b = 0 →
      cosineSimilarity a b = 0) := by
  constructor
  · intro a b
    unfold cosineSimilarity
    by_cases h1 : a.length = 0 ∨ b.length = 0 ∨ a.length ≠ b.length
    · have h2 : b.length = 0 ∨ a.length = 0 ∨ b.length ≠ a.length := by tauto
      rw [if_pos h1, if_pos h2]
    · have h2 : ¬(b.length = 0 ∨ a.length = 0 ∨ b.length ≠ a.length) := by tauto
      rw [if_neg h1, if_neg h2]
      have hlen : a.length = b.length := by tauto
      dsimp only
      rw [dotProduct_comm hlen]
      by_cases hm : magnitude b = 0 ∨ magnitude a = 0
      · have hm2 : magnitude a = 0 ∨ magnitude b = 0 := hm.symm
        rw [if_pos hm2, if_pos hm]
      · have hm2 : ¬(magnitude a = 0 ∨ magnitude b = 0) := fun h => hm h.symm
        rw [if_neg hm2, if_neg hm, mul_comm]
  · intro a b h
    unfold cosineSimilarity
    rcases h with h | h | h | h | h
    · rw [if_pos (Or.inl (by rw [h]; rfl))]
    · rw [if_pos (Or.inr (Or.inl (by rw [h]; rfl)))]
    · rw [if_pos (Or.inr (Or.inr h))]
    · by_cases h1 : a.length = 0 ∨ b.length = 0 ∨ a.length ≠ b.length
      · rw [if_pos h1]
      · rw [if_neg h1]
        dsimp only
        rw [if_pos (Or.inl h)]
    · by_cases h1 : a.length = 0 ∨ b.length = 0 ∨ a.length ≠ b.length
      · rw [if_pos h1]
      · rw [if_neg h1]
        dsimp only
        rw [if_pos (Or.inr h)]

theorem claim_C8_witness : cosineSimilarity [] [(1 : ℝ)] = 0 :=
  claim_C8_cosine_similarity.2 [] [1] (Or.inl rfl)

/-! ### Verdict validation and trust-score aggregation (factCheck route)

`generateObject` validates the model response against the zod
`factCheckSchema` and throws on schema mismatch or call failure; the
handler's catch branch then synthesizes one Unclear placeholder per claim
of the batch.  Scores are rationals (JS numbers in `[-100, 100]`); a
missing or `NaN` score is `none`. -/

inductive Verdict
  | Support
  | PartiallySupport
  | Unclear
  | Contradict
  | Refute
deriving DecidableEq

structure FactCheckResult where
  claim : String
  Verdict : Verdict
  Reason : String
  Reference : List String
  Trust_Score : Option ℚ
deriving DecidableEq

/-- The zod `factCheckSchema` element validation (lines 12-29): non-empty
Reason of at most 600 characters, at most 3 references, and a numeric
Trust_Score between -100 and 100.  No verdict/score consistency is
checked. -/
def factCheckSchemaOk (r : FactCheckResult) : Bool :=
  decide (1 ≤ r.Reason.length) && decide (r.Reason.length ≤ 600) &&
  decide (r.Reference.length ≤ 3) &&
  (match r.Trust_Score with
   | some q => decide (-100 ≤ q) && decide (q ≤ 100)
   | none => false)

/-- The placeholder pushed for each claim of a failed batch (lines
450-458); `claim || 'Unknown claim'`. -/
def errorPlaceholder (claim : String) : FactCheckResult :=
  { claim := if claim = "" then "Unknown claim" else claim
    Verdict := .Unclear
    Reason := "Error processing claim"
    Reference := ["Error processing claim"]
    Trust_Score := some 0 }

/-- One batch of the POST handler (lines 429-459): a response passing the
schema is appended as is; a failed call or schema-rejected response is
replaced by placeholders, one per claim of the batch. -/
def processBatch (response : Option (List FactCheckResult))
    (batchClaims : List String) : List FactCheckResult :=
  match response with
  | some results =>
    if results.all factCheckSchemaOk then results
    else batchClaims.map errorPlaceholder
  | none => batchClaims.map errorPlaceholder

/-- JavaScript `Math.round`: round half toward positive infinity. -/
def jsRound (q : ℚ) : ℤ := ⌊q + 1 / 2⌋

/-- Average trust score (lines 462-470): mean over the results with a
numeric score and a verdict other than Unclear, rounded; 0 when no result
qualifies. -/
def averageTrustScore (results : List FactCheckResult) : ℤ :=
  let validScores := results.filter fun r =>
    r.Trust_Score.isSome ∧ r.Verdict ≠ Verdict.Unclear
  if 0 < validScores.length then
    jsRound (((validScores.map fun r => r.Trust_Score.getD 0).sum :
      ℚ) / validScores.length)
  else 0

/-- Modelled from the spec's words, for comparison with the code: the
aggregate equals the rounded arithmetic mean of `Trust_Score` over exactly
those results whose score is a number and whose verdict is not Unclear,
and 0 by convention when no result qualifies. -/
def specAggregateScore (results : List FactCheckResult) : ℤ :=
  let qualifying := results.filter fun r =>
    r.Trust_Score.isSome ∧ r.Verdict ≠ Verdict.Unclear
  if qualifying = [] then 0
  else jsRound (((qualifying.map fun r => r.Trust_Score.getD 0).sum :
    ℚ) / qualifying.length)

/-- C3: the aggregate trust score equals the rounded arithmetic mean of
`Trust_Score` over exactly those per-claim results whose score is a number
(not NaN) and whose verdict is not Unclear; when no result qualifies the
reported `averageTrustScore` is 0.  In particular, for the results
`[(Support, 100), (Unclear, null), (Refute, 0)]` the average is
`round((100+0)/2) = 50`. -/
theorem claim_C3_average_trust_score :
    (∀ results : List FactCheckResult,
      averageTrustScore results = specAggregateScore results) ∧
    averageTrustScore
      [{ claim := "a", Verdict := .Support, Reason := "s", Reference := [],
         Trust_Score := some 100 },
       { claim := "b", Verdict := .Unclear, Reason := "u", Reference := [],
         Trust_Score := none },
       { claim := "c", Verdict := .Refute, Reason := "r", Reference := [],
         Trust_Score := some 0 }] = 50 := by
  constructor
  · intro results
    unfold averageTrustScore specAggregateScore
    dsimp only
    by_cases h : 0 < (results.filter fun r =>
        r.Trust_Score.isSome ∧ r.Verdict ≠ Verdict.Unclear).length
    · rw [if_pos h, if_neg (by
        intro hnil
        rw [hnil] at h
        simp at h)]
    · rw [if_neg h, if_pos (by
        rcases List.eq_nil_or_concat (results.filter fun r =>
          r.Trust_Score.isSome ∧ r.Verdict ≠ Verdict.Unclear) with hnil | ⟨l, x, hx⟩
        · exact hnil
        · exfalso
          apply h
          rw [hx]
          simp)]
  · unfold averageTrustScore jsRound
    norm_num [List.filter,
      show (decide (Verdict.Support = Verdict.Unclear)) = false from rfl,
      show (decide (Verdict.Refute = Verdict.Unclear)) = false from rfl]

/-- The verdict→score mapping the claim asserts: Support ⇒ 100,
PartiallySupport ⇒ 50, and Unclear/Contradict/Refute ⇒ 0 or null. -/
def verdictScoreConsistent (r : FactCheckResult) : Bool :=
  match r.Verdict with
  | .Support => r.Trust_Score = some 100
  | .PartiallySupport => r.Trust_Score = some 50
  | _ => r.Trust_Score = some 0 ∨ r.Trust_Score = none

def c4Result : FactCheckResult :=
  { claim := "The sky is green."
    Verdict := .Support
    Reason := "Evidence is mixed."
    Reference := []
    Trust_Score := some 7 }

/-- C4 counterexample: the schema only checks that Trust_Score lies in
[-100, 100], so a validated response may pair Verdict Support with score
7; the endpoint returns it unchanged, violating the claimed fixed
verdict→score mapping. -/
theorem claim_C4_counterexample :
    factCheckSchemaOk c4Result = true ∧
    processBatch (some [c4Result]) ["The sky is green."] = [c4Result] ∧
    verdictScoreConsistent c4Result = false := by
  decide

/-- C4 (amended): for every result returned by a batch of the fact-check
endpoint, the trustScore is a number in the schema range [-100, 100] —
the fixed verdict→score mapping is requested in the prompt but not
enforced by validation — and every synthesized error placeholder does
satisfy the mapping (Unclear with trustScore 0). -/
theorem claim_C4_schema_range (response : Option (List FactCheckResult))
    (batchClaims : List String) :
    (∀ r ∈ processBatch response batchClaims,
      ∃ q : ℚ, r.Trust_Score = some q ∧ -100 ≤ q ∧ q ≤ 100) ∧
    ∀ claim, verdictScoreConsistent (errorPlaceholder claim) = true := by
  constructor
  · intro r hr
    have hplace : ∀ c : String, ∃ q : ℚ,
        (errorPlaceholder c).Trust_Score = some q ∧ -100 ≤ q ∧ q ≤ 100 := by
      intro c
      exact ⟨0, rfl, by norm_num, by norm_num⟩
    cases response with
    | none =>
      simp only [processBatch] at hr
      obtain ⟨c, -, rfl⟩ := List.mem_map.mp hr
      exact hplace c
    | some results =>
      simp only [processBatch] at hr
      by_cases hall : results.all factCheckSchemaOk = true
      · rw [if_pos hall] at hr
        have hok := List.all_eq_true.mp hall r hr
        cases hts : r.Trust_Score with
        | none =>
          rw [factCheckSchemaOk, hts] at hok
          simp at hok
        | some q =>
          rw [factCheckSchemaOk, hts] at hok
          simp only [Bool.and_eq_true, decide_eq_true_eq] at hok
          exact ⟨q, rfl, hok.2.1, hok.2.2⟩
      · rw [if_neg hall] at hr
        obtain ⟨c, -, rfl⟩ := List.mem_map.mp hr
        exact hplace c
  · intro claim
    rfl

theorem claim_C4_witness :
    ∃ q : ℚ, (errorPlaceholder "x").Trust_Score = some q ∧
      -100 ≤ q ∧ q ≤ 100 :=
  (claim_C4_schema_range none ["x"]).1 (errorPlaceholder "x") (by decide)

end Lumos
